import Mathlib

/-!
Shallow embedding of the agent execution core of the `smartgpt` repository:
`src/auto/agents/worker/methodical.rs` (`add_memories`, `run_method_agent`)
and `src/auto/employee.rs` (`run_employee`).

The Rust code drives external effects (LLM completions, tool dispatch, a
memory store, an update sink).  We embed each run as a deterministic
state-passing function parameterised by an oracle environment that fixes the
outcome of every external call (modelled as input streams indexed by call
position), and we record an event trace so that ordering and counting
properties of the runs can be stated and proved.
-/

namespace SmartGPT

/-- Message: tagged variant wrapping raw text (src `Message`). -/
inductive Message where
  | system (text : String)
  | user (text : String)
  | assistant (text : String)
deriving DecidableEq, Repr

/-- `auto::run::Action`: a proposed tool invocation.  Modelled from the spec:
the struct itself is declared outside the given sources; per the decision
JSON schema it carries a tool name and opaque arguments. -/
structure Action where
  tool : String
  args : String
deriving DecidableEq, Repr

/-- `MethodicalThoughts` (methodical.rs lines 10-14). -/
structure MethodicalThoughts where
  thoughts : String
  action : Action
deriving DecidableEq, Repr

/-- `MethodicalAction` (methodical.rs lines 16-28). -/
inductive MethodicalAction where
  | resource (name : String) (question : Option String)
  | action (name : String) (purpose : Option String)
deriving DecidableEq, Repr

/-- `MethodicalStep` (methodical.rs lines 30-34). -/
structure MethodicalStep where
  idea : String
  decision : MethodicalAction
deriving DecidableEq, Repr

/-- `MethodicalAsset` (methodical.rs lines 36-40). -/
structure MethodicalAsset where
  name : String
  description : String
deriving DecidableEq, Repr

/-- `MethodicalPlan` (methodical.rs lines 42-47). -/
structure MethodicalPlan where
  thoughts : String
  steps : List MethodicalStep
  assets : List MethodicalAsset
deriving DecidableEq, Repr

/-- `Memories` (methodical.rs lines 62-66). -/
structure Memories where
  actions : List String
  observations : List String
deriving DecidableEq, Repr

/-- `NamedAsset(name, content)`: a realized artifact. -/
structure NamedAsset where
  name : String
  content : String
deriving DecidableEq, Repr

/-- `EmployeeAction` (employee.rs lines 23-27); `ScriptValue` arguments are
opaque here and kept as strings. -/
structure EmployeeAction where
  command : String
  args : List String
deriving DecidableEq, Repr

/-- `EmployeeThought` (employee.rs lines 29-38). -/
structure EmployeeThought where
  previousSuccess : Option Bool
  thoughts : String
  reasoning : String
  plan : String
  action : EmployeeAction
deriving DecidableEq, Repr

/-- `ParsedResponse` as returned by `try_parse_json`: the typed value plus
the raw model text. -/
structure ParsedResponse (α : Type) where
  data : α
  raw : String
deriving DecidableEq, Repr

/-- The `StaticUpdate` lifecycle events the two runs emit to the update
sink. -/
inductive Update where
  | plan (p : MethodicalPlan)
  | selectedStep (s : MethodicalStep)
  | thoughts (t : MethodicalThoughts)
  | actionResults (out : String)
  | addedAsset (a : NamedAsset)
  | savedMemories (m : Memories)
deriving DecidableEq, Repr

/-- Error taxonomy of the runs.  `fuelExhausted` is an artifact of bounding
the employee loop (the Rust loop is unbounded); it is produced by no oracle
and by no other control path. -/
inductive RunErr where
  | parseExhausted (raw : String)
  | disallowed (reason : String)
  | toolFail (msg : String)
  | sinkFail (msg : String)
  | storeFail (msg : String)
  | recallFail (msg : String)
  | modelFail (msg : String)
  | employeeErr (msg : String)
  | fuelExhausted
deriving DecidableEq, Repr

/-- The named per-role agent states reachable through `CommandContext`
(`context.agents.*`); `get_agent` / `get_planner_agent` are modelled as
agent names. -/
inductive AgentName where
  | planner
  | executor
  | fast
  | employee
deriving DecidableEq, Repr

/-- An `AgentInfo`'s conversational state: prompt prefix, trailing end
prompt, and mutable message history. -/
structure Agent where
  prompt : List Message
  endPrompt : List Message
  messageHistory : List Message
deriving DecidableEq, Repr

/-- The four per-role agent states of `context.agents`. -/
structure Agents where
  planner : Agent
  executor : Agent
  fast : Agent
  employee : Agent
deriving DecidableEq, Repr

def Agents.get (a : Agents) : AgentName → Agent
  | .planner => a.planner
  | .executor => a.executor
  | .fast => a.fast
  | .employee => a.employee

def Agents.set (a : Agents) : AgentName → Agent → Agents
  | .planner, ag => { a with planner := ag }
  | .executor, ag => { a with executor := ag }
  | .fast, ag => { a with fast := ag }
  | .employee, ag => { a with employee := ag }

/-- Observable events of a run: update-sink emissions and the internal
operations the claims speak about, recorded exactly where the source
performs them. -/
inductive Event where
  | update (u : Update)
  | dispatch (sel : AgentName) (act : Action)
  | toolResultAppend (out : String)
  | budgetCheck (tokens : Int)
  | crop (keep : Nat)
  | memoryStore (mem : String)
  | cmdLookup (name : String)
  | dispatchCmd (name : String) (args : List String)
deriving DecidableEq, Repr

/-- The mutable state a run threads: the shared `CommandContext` (per-role
agents and the asset map, kept as an association list), the event trace,
and the position counters indexing the oracle streams. -/
structure RunState where
  agents : Agents
  assets : List (String × String)
  trace : List Event
  memCalls : Nat
  dispatches : Nat
deriving DecidableEq, Repr

/-- The run monad: state passing with short-circuiting errors; the state
(including the trace) survives an error. -/
def M (α : Type) : Type := RunState → Except RunErr α × RunState

def M.pure (a : α) : M α := fun s => (.ok a, s)

def M.bind (x : M α) (f : α → M β) : M β := fun s =>
  match x s with
  | (.ok a, s') => f a s'
  | (.error e, s') => (.error e, s')

instance : Monad M where
  pure := M.pure
  bind := M.bind

def M.throw {α : Type} (e : RunErr) : M α := fun s => (.error e, s)

/-- Run an action and reify its outcome instead of short-circuiting
(models a Rust `match` on a `Result`). -/
def M.attempt (x : M α) : M (Except RunErr α) := fun s =>
  match x s with
  | (.ok a, s') => (.ok (.ok a), s')
  | (.error e, s') => (.ok (.error e), s')

def emit (e : Event) : M Unit := fun s =>
  (.ok (), { s with trace := s.trace ++ [e] })

def getAgentState (name : AgentName) : M Agent := fun s =>
  (.ok (s.agents.get name), s)

def setAgentState (name : AgentName) (a : Agent) : M Unit := fun s =>
  (.ok (), { s with agents := s.agents.set name a })

def pushPrompt (name : AgentName) (m : Message) : M Unit := fun s =>
  let a := s.agents.get name
  (.ok (), { s with agents := s.agents.set name { a with prompt := a.prompt ++ [m] } })

def pushEndPrompt (name : AgentName) (m : Message) : M Unit := fun s =>
  let a := s.agents.get name
  (.ok (), { s with agents := s.agents.set name { a with endPrompt := a.endPrompt ++ [m] } })

def pushHistory (name : AgentName) (m : Message) : M Unit := fun s =>
  let a := s.agents.get name
  (.ok (), { s with agents := s.agents.set name { a with messageHistory := a.messageHistory ++ [m] } })

/-- `Vec::pop` on the message history: drop the last entry (if any). -/
def popHistory (name : AgentName) : M Unit := fun s =>
  let a := s.agents.get name
  (.ok (), { s with agents := s.agents.set name { a with messageHistory := a.messageHistory.dropLast } })

/-- `llm.clear_history()`: clears the mutable message history. -/
def clearHistory (name : AgentName) : M Unit := fun s =>
  let a := s.agents.get name
  (.ok (), { s with agents := s.agents.set name { a with messageHistory := [] } })

def clearPrompt (name : AgentName) : M Unit := fun s =>
  let a := s.agents.get name
  (.ok (), { s with agents := s.agents.set name { a with prompt := [] } })

/-- Insert-or-overwrite into the asset association list
(`context.assets.entry(name).or_insert(..) = content`). -/
def insertAssoc (l : List (String × String)) (k v : String) : List (String × String) :=
  if l.any (fun p => p.1 == k) then
    l.map (fun p => if p.1 == k then (k, v) else p)
  else
    l ++ [(k, v)]

def setAsset (k v : String) : M Unit := fun s =>
  (.ok (), { s with assets := insertAssoc s.assets k v })

/-- `llm.get_messages()`: the role's full message set
(prompt prefix + history + end-prompt suffix). -/
def Agent.getMessages (a : Agent) : List Message :=
  a.prompt ++ a.messageHistory ++ a.endPrompt

/-- Estimated token size of a message list under an abstract per-message
cost model. -/
def messagesSize (cost : Message → Nat) (msgs : List Message) : Nat :=
  (msgs.map cost).sum

/-- Modelled from the spec: `get_tokens_remaining` / the model client's
`estimateRemainingTokens(messages)` is declared outside the given sources;
per the spec it estimates remaining capacity, here context size minus the
estimated size of the full message set. -/
def tokensRemainingFor (cost : Message → Nat) (contextSize : Nat)
    (msgs : List Message) : Int :=
  (contextSize : Int) - (messagesSize cost msgs : Int)

/-- Modelled from the spec: `crop_to_tokens_remaining` / `truncate(role,
keepTokens)` is declared outside the given sources; per the spec it
forcibly drops oldest history entries until the estimated size fits within
`keepTokens`. -/
def cropToFit (cost : Message → Nat) (keep : Nat) : List Message → List Message
  | [] => []
  | m :: rest =>
      if messagesSize cost (m :: rest) ≤ keep then m :: rest
      else cropToFit cost keep rest

/-- The oracle environment of a methodical run: the caller-supplied inputs
of `run_method_agent` plus deterministic streams fixing the outcome of
every external call (model completions, tool dispatch, memory store,
update sink), indexed by call position. -/
structure MEnv where
  getAgent : AgentName
  getPlanner : AgentName
  task : String
  desire : String
  assetsOpt : Option String
  personality : String
  toolsText : String
  recallResult : Except RunErr (List String)
  planResult : Except RunErr (ParsedResponse MethodicalPlan)
  thoughtsResult : Nat → Except RunErr (ParsedResponse MethodicalThoughts)
  toolResult : Nat → Except RunErr String
  assetResult : Nat → Except RunErr String
  memoriesResult : Nat → Except RunErr (ParsedResponse Memories)
  storeResult : String → Except RunErr Unit
  sink : Update → Except RunErr Unit
  allowAction : Action → Option String
  cost : Message → Nat
  contextSize : Nat

/-- `listen_to_update(&update)?`: record the emission in the trace, then
propagate any sink error. -/
def sinkUpdate (env : MEnv) (u : Update) : M Unit := fun s =>
  let s' := { s with trace := s.trace ++ [Event.update u] }
  match env.sink u with
  | .ok _ => (.ok (), s')
  | .error e => (.error e, s')

/-- The summarization prompt pushed by `add_memories`
(methodical.rs lines 72-89). -/
def memoriesPromptText : String :=
  "Please summarize all important actions you took out.\nPlease also summarize all observations of information you have collected.\n\nBe concise.\n\nRespond in this JSON format:\n```json\n\x7b\n    \"actions\": [\n        \"what tool you used and why\"\n    ],\n    \"observations\": [\n        \"what you learned\"\n    ]\n\x7d\n```"

/-- `agent.observations.store_memory_sync` over the chained
actions/observations lists (methodical.rs lines 94-96). -/
def storeMemories (env : MEnv) : List String → M Unit
  | [] => M.pure ()
  | mem :: rest => do
      emit (.memoryStore mem)
      match env.storeResult mem with
      | .error e => M.throw e
      | .ok _ => storeMemories env rest

/-- Consume the next position of the summarization-call oracle stream. -/
def takeMemoriesIndex : M Nat := fun s =>
  (.ok s.memCalls, { s with memCalls := s.memCalls + 1 })

/-- `add_memories` (methodical.rs lines 68-99): push the summarization
prompt, parse a `Memories` response, emit `SavedMemories`, persist each
line to the memory store.  Any failure propagates to the caller. -/
def add_memories (env : MEnv) (agent : AgentName) : M Unit := do
  pushHistory agent (.user memoriesPromptText)
  let idx ← takeMemoriesIndex
  match env.memoriesResult idx with
  | .error e => M.throw e
  | .ok parsed => do
      sinkUpdate env (.savedMemories parsed.data)
      storeMemories env (parsed.data.actions ++ parsed.data.observations)

/-- `agent.llm.crop_to_tokens_remaining(keep)` applied to the named agent's
history (see `cropToFit`). -/
def cropHistory (env : MEnv) (agent : AgentName) (keep : Nat) : M Unit := fun s =>
  let a := s.agents.get agent
  let a' := { a with messageHistory := cropToFit env.cost keep a.messageHistory }
  (.ok (),
   { s with agents := s.agents.set agent a', trace := s.trace ++ [Event.crop keep] })

/-- The budget-flush cycle (methodical.rs lines 280-286): attempt
summarization; on failure fall back to cropping to 1000; then
unconditionally crop to 2000. -/
def budgetFlush (env : MEnv) : M Unit := do
  let r ← M.attempt (add_memories env env.getAgent)
  match r with
  | .ok _ => M.pure ()
  | .error _ => cropHistory env env.getAgent 1000
  cropHistory env env.getAgent 2000

/-- Tool-success continuation (methodical.rs lines 273-287): emit
`ActionResults`, append the tool output to the executor history, read the
remaining-token estimate, and flush the budget when it drops below 1200. -/
def handleToolSuccess (env : MEnv) (out : String) : M Unit := do
  sinkUpdate env (.actionResults out)
  emit (.toolResultAppend out)
  pushHistory env.getAgent (.user out)
  let a ← getAgentState env.getAgent
  emit (.budgetCheck (tokensRemainingFor env.cost env.contextSize a.getMessages))
  if tokensRemainingFor env.cost env.contextSize a.getMessages < 1200 then
    budgetFlush env
  else M.pure ()

/-- Modelled from the spec: `use_tool` is declared in `worker/mod.rs`,
outside the given sources; per the spec it dispatches the action to the
tool registry against the selected agent's state and yields the tool's
textual result or its error.  The dispatch is recorded with the selector
it was invoked with. -/
def use_tool (env : MEnv) (sel : AgentName) (act : Action) : M String := fun s =>
  let s' := { s with trace := s.trace ++ [Event.dispatch sel act],
                     dispatches := s.dispatches + 1 }
  match env.toolResult s.dispatches with
  | .ok out => (.ok out, s')
  | .error e => (.error e, s')

/-- Stand-in for `serde_yaml::to_string` on a step: an explicit textual
rendering (the exact YAML text is not load-bearing). -/
def renderMethodicalAction : MethodicalAction → String
  | .resource n q => "resource: " ++ n ++ " " ++ q.getD ""
  | .action n p => "action: " ++ n ++ " " ++ p.getD ""

def renderStep (st : MethodicalStep) : String :=
  "idea: " ++ st.idea ++ "\n" ++ renderMethodicalAction st.decision

/-- The per-step execution prompt (methodical.rs lines 236-258). -/
def stepPromptText (st : MethodicalStep) : String :=
  "Now you will carry out the next step: \n" ++ renderStep st ++ "\n\nYou must carry out this step with one entire action.\nInclude ALL information.\n\nEnsure you don\x27t hallucinate; only give information that you actually have.\n\nAssets:\nNo assets.\n\nRespond in this JSON format:\n```json\n\x7b\n    \"thoughts\": \"thoughts\",\n    \"action\": \x7b\n        \"tool\": \"tool\",\n        \"args\": \x7b\x7d\n    \x7d\n\x7d\n```"

/-- One iteration of the step loop (methodical.rs lines 230-293): emit
`SelectedStep`, push the step prompt, parse a thoughts+action decision,
append the raw decision, emit `Thoughts`, pass the action through the
gate, dispatch against the fast agent, and on success run the
tool-success continuation. -/
def stepBody (env : MEnv) (i : Nat) (step : MethodicalStep) : M Unit := do
  sinkUpdate env (.selectedStep step)
  pushHistory env.getAgent (.user (stepPromptText step))
  match env.thoughtsResult i with
  | .error e => M.throw e
  | .ok parsed => do
      pushHistory env.getAgent (.assistant parsed.raw)
      sinkUpdate env (.thoughts parsed.data)
      match env.allowAction parsed.data.action with
      | some reason => M.throw (.disallowed reason)
      | none => do
          let out ← use_tool env .fast parsed.data.action
          handleToolSuccess env out

def runSteps (env : MEnv) : Nat → List MethodicalStep → M Unit
  | _, [] => M.pure ()
  | i, step :: rest => do
      stepBody env i step
      runSteps env (i + 1) rest

/-- Stand-in for `serde_yaml::to_string` on an asset spec. -/
def renderAsset (a : MethodicalAsset) : String :=
  "name: " ++ a.name ++ "\ndescription: " ++ a.description

/-- The asset-writing prompt (methodical.rs lines 302-309). -/
def assetPromptText (a : MethodicalAsset) : String :=
  "Now, you will write this asset:\n\n" ++ renderAsset a ++ "\n\nRespond in pure plaintext format with a detailed markdown response.\nInclude all necessary details as the description stated, alongside any necessary sources or explanation of where you got the information."

/-- One iteration of the asset loop (methodical.rs lines 297-323): push
the asset prompt, obtain the free-form content from the model, pop the
prompt back off, insert-or-overwrite the shared asset map, and emit
`AddedAsset`. -/
def assetBody (env : MEnv) (i : Nat) (asset : MethodicalAsset) : M NamedAsset := do
  pushHistory env.getAgent (.user (assetPromptText asset))
  match env.assetResult i with
  | .error e => M.throw e
  | .ok content => do
      popHistory env.getAgent
      setAsset asset.name content
      sinkUpdate env (.addedAsset ⟨asset.name, content⟩)
      M.pure ⟨asset.name, content⟩

/-- The asset loop, collecting this run's changed assets in order. -/
def runAssets (env : MEnv) : Nat → List MethodicalAsset → M (List NamedAsset)
  | _, [] => M.pure []
  | i, a :: rest => do
      let n ← assetBody env i a
      let ns ← runAssets env (i + 1) rest
      M.pure (n :: ns)

/-- The run's return digest (methodical.rs lines 328-337). -/
def assetDigest (changed : List NamedAsset) : String :=
  let assetStr :=
    if changed.length == 0 then "No assets changed."
    else String.intercalate "\n"
      (changed.map (fun el => "## Asset `" ++ el.name ++ "`\n" ++ el.content))
  "Assets:\n\n" ++ assetStr

/-- The planner personality system message (methodical.rs lines 127-130). -/
def personalityText (p : String) : String :=
  "Personality: \n" ++ p

/-- The planning prompt (methodical.rs lines 151-214). -/
def plannerPromptText (tools task observations data desire : String) : String :=
  tools ++ "\n\nYou have been given these resources and actions.\nYou may use these resources and actions, and only these.\n\nHere is your new task:\n" ++ task ++ "\n\nHere is a list of your memories:\n" ++ observations ++ "\n\nHere is a list of assets previously saved:\n" ++ data ++ "\n\nCreate a list of steps of what you need to do and which resource or action you will use.\nOnly use one resource or action for each step.\n\nYour goal is to give a response with the following information:\n" ++ desire ++ "\n\nYou should try to save that precise information through assets.\n\nDo not specify arguments.\nDo not \"repeat steps\".\n\nKeep your plan at as low steps as possible.\nKeep your plan as concise as possible!\n\nAfter you are done planning steps, additionally plan to save one or more assets as output.\n\nRespond in this JSON format:\n```json\n\x7b\n    \"thoughts\": \"thoughts regarding steps and assets\",\n    \"steps\": [\n        \x7b\n            \"idea\": \"idea\",\n            \"decision\": \x7b\n                \"resource\": \x7b\n                    \"name\": \"name\",\n                    \"question\": \"what question does using this resource answer\"\n                \x7d\n            \x7d\n        \x7d,\n        \x7b\n            \"idea\": \"idea\",\n            \"decision\": \x7b\n                \"action\": \x7b\n                    \"name\": \"name\",\n                    \"purpose\": \"why use this action\"\n                \x7d\n            \x7d\n        \x7d\n    ],\n    \"assets\": [\n        \x7b\n            \"name\": \"asset_name,\n            \"description\": \"description\"\n        \x7d\n    ]\n\x7d\n```"

/-- `run_method_agent` (methodical.rs lines 101-341): clear both roles,
seed the planner (personality, memories, planning prompt), parse the plan,
emit the `Plan` update, hand the planner's prompt and history off to the
executor, run the step loop, run the asset loop, run the final
summarization (its failure propagates), and return the digest of changed
assets. -/
def run_method_agent (env : MEnv) : M String := do
  clearHistory env.getAgent
  clearHistory env.getPlanner
  pushPrompt env.getPlanner (.system (personalityText env.personality))
  match env.recallResult with
  | .error e => M.throw e
  | .ok obs => do
      pushPrompt env.getPlanner
        (.user (plannerPromptText env.toolsText env.task
          (if obs.length == 0 then "None found."
           else String.intercalate "\n" (obs.map (fun o => "- " ++ o)))
          (env.assetsOpt.getD "No assets.") env.desire))
      match env.planResult with
      | .error e => M.throw e
      | .ok parsed => do
          pushHistory env.getPlanner (.assistant parsed.raw)
          sinkUpdate env (.plan parsed.data)
          let planner ← getAgentState env.getPlanner
          let agent ← getAgentState env.getAgent
          setAgentState env.getAgent
            { agent with prompt := planner.prompt,
                         messageHistory := planner.messageHistory }
          runSteps env 0 parsed.data.steps
          let changed ← runAssets env 0 parsed.data.assets
          add_memories env env.getAgent
          M.pure (assetDigest changed)

/-- The oracle environment of an employee run: the caller-supplied inputs
of `run_employee` plus deterministic streams fixing the outcome of every
external call, indexed by loop iteration.  `registry` is the set of
command names reachable through `plugins[..].commands`. -/
structure EEnv where
  personality : String
  task : String
  cmdsText : String
  registry : List String
  decision : Nat → Except RunErr (ParsedResponse EmployeeThought)
  runCmd : Nat → Except RunErr String

/-- Employee system message (employee.rs lines 52-60, no trim). -/
def employeeSystemText (personality : String) : String :=
  "\nPersonality: " ++ personality ++ "\n\nYou will be given one task.\nYour goal is to complete that task, one command at a time.\nDo it as fast as possible.\n"

/-- Employee end prompt listing the command catalogue and the `finish`
sentinel (employee.rs lines 62-68). -/
def employeeEndPromptText (cmds : String) : String :=
  "You have access to these commands:\n" ++ cmds ++ "\n    finish() -> None\n        A special command. Use this command when you are done with your assignment."

/-- Employee reply-format prompt (employee.rs lines 75-96, no trim). -/
def employeeFormatText : String :=
  "\nReply in this format:\n\n```json\n\x7b\n    \"previous command success\": true / false / null,\n    \"thoughts\": \"...\",\n    \"reasoning\": \"...\",\n    \"long term plan\": \"...\",\n    \"action\": \x7b\n        \"command\": \"...\",\n        \"args\": [\n            \"...\"\n        ]\n    \x7d\n\x7d\n```\n\nReply in that format exactly.\nMake sure every field is filled in detail.\nKeep every field in that exact order.\n"

/-- The recurring next-command user message (employee.rs lines 98-100 and
142-144). -/
def runNextCommandText : String :=
  "Please run your next command. If you are done, keep your \x27command name\x27 field as \x27finish\x27"

/-- Seeding of the employee role (employee.rs lines 49-100). -/
def employeeSeed (env : EEnv) : M Unit := do
  clearPrompt .employee
  clearHistory .employee
  pushPrompt .employee (.system (employeeSystemText env.personality))
  pushEndPrompt .employee (.user (employeeEndPromptText env.cmdsText))
  pushPrompt .employee (.user ("\nYour task is: " ++ env.task ++ "\n"))
  pushPrompt .employee (.user employeeFormatText)
  pushHistory .employee (.user runNextCommandText)

/-- The employee decision/dispatch loop (employee.rs lines 105-145),
bounded by fuel (the Rust loop is unbounded; `fuelExhausted` never arises
when the fuel exceeds the number of iterations taken).  Each iteration:
parse one decision; return success when its command is `finish`; otherwise
look the command up in the registry (failing with the command-not-found
error), dispatch it, and only on dispatch success append the raw decision,
the output, and the next-command prompt to the history. -/
def employeeLoop (env : EEnv) : Nat → Nat → M Unit
  | 0, _ => M.throw .fuelExhausted
  | fuel + 1, k => do
      match env.decision k with
      | .error e => M.throw e
      | .ok parsed => do
          if parsed.data.action.command == "finish" then
            M.pure ()
          else do
            emit (.cmdLookup parsed.data.action.command)
            if env.registry.contains parsed.data.action.command then do
              emit (.dispatchCmd parsed.data.action.command parsed.data.action.args)
              match env.runCmd k with
              | .error e => M.throw e
              | .ok out => do
                  pushHistory .employee (.assistant parsed.raw)
                  pushHistory .employee (.user out)
                  pushHistory .employee (.user runNextCommandText)
                  employeeLoop env fuel (k + 1)
            else
              M.throw (.employeeErr ("Cannot find command " ++ parsed.data.action.command))

/-- `run_employee` (employee.rs lines 40-148): seed the employee role and
run the decision/dispatch loop. -/
def run_employee (env : EEnv) (fuel : Nat) : M Unit := do
  employeeSeed env
  employeeLoop env fuel 0

/-! ## Concrete instances used to exhibit the behaviours -/

def agent0 : Agent := ⟨[], [], []⟩

def agents0 : Agents := ⟨agent0, agent0, agent0, agent0⟩

def st0 : RunState := ⟨agents0, [], [], 0, 0⟩

def stepC : MethodicalStep := ⟨"lookup", .resource "search" none⟩

/-- A benign methodical environment: empty plan, permissive gate, all
oracles succeed, plenty of context budget. -/
def envBase : MEnv where
  getAgent := .executor
  getPlanner := .planner
  task := "find the capital of France"
  desire := "the capital city"
  assetsOpt := none
  personality := "helpful"
  toolsText := "tools"
  recallResult := .ok []
  planResult := .ok ⟨⟨"plan", [], []⟩, "raw plan"⟩
  thoughtsResult := fun _ => .ok ⟨⟨"think", ⟨"search", "q"⟩⟩, "raw thoughts"⟩
  toolResult := fun _ => .ok "result text"
  assetResult := fun _ => .ok "content"
  memoriesResult := fun _ => .ok ⟨⟨[], []⟩, "raw memories"⟩
  storeResult := fun _ => .ok ()
  sink := fun _ => .ok ()
  allowAction := fun _ => none
  cost := fun _ => 0
  contextSize := 10000

/-- One step, gate denies everything. -/
def envC2 : MEnv :=
  { envBase with
    planResult := .ok ⟨⟨"plan", [stepC], []⟩, "raw plan"⟩,
    allowAction := fun _ => some "no" }

/-- One step, everything succeeds. -/
def envC3 : MEnv :=
  { envBase with planResult := .ok ⟨⟨"plan", [stepC], []⟩, "raw plan"⟩ }

/-- No steps, the same asset name written twice. -/
def envC4 : MEnv :=
  { envBase with
    planResult := .ok ⟨⟨"plan", [], [⟨"a", "first"⟩, ⟨"a", "second"⟩]⟩, "raw plan"⟩,
    assetResult := fun i => if i == 0 then .ok "x" else .ok "y" }

/-- Empty plan, the summarization parse always fails. -/
def envC5 : MEnv :=
  { envBase with memoriesResult := fun _ => .error (.parseExhausted "bad") }

/-- Tiny context so the budget check always falls below the low-water
mark. -/
def envC1 : MEnv := { envBase with contextSize := 0 }

def lookupThought : ParsedResponse EmployeeThought :=
  ⟨⟨none, "th", "re", "pl", ⟨"lookup", ["arg"]⟩⟩, "raw lookup"⟩

def finishThought : ParsedResponse EmployeeThought :=
  ⟨⟨some true, "th2", "re2", "pl2", ⟨"finish", []⟩⟩, "raw finish"⟩

def transmogrifyThought : ParsedResponse EmployeeThought :=
  ⟨⟨none, "th", "re", "pl", ⟨"transmogrify", []⟩⟩, "raw transmogrify"⟩

/-- Employee environment: decide `lookup`, then `finish`. -/
def envE8 : EEnv where
  personality := "helpful"
  task := "do the thing"
  cmdsText := "lookup(query) -> String"
  registry := ["lookup"]
  decision := fun k => if k == 0 then .ok lookupThought else .ok finishThought
  runCmd := fun _ => .ok "lookup output"

/-- Employee environment: decide an unknown command. -/
def envE9 : EEnv :=
  { envE8 with decision := fun _ => .ok transmogrifyThought }

def assetC : MethodicalAsset := ⟨"a", "first"⟩

def isAddedAssetEv : Event → Bool
  | .update (.addedAsset _) => true
  | _ => false

/-! ## Trace observations -/

def isSelEv : Event → Bool
  | .update (.selectedStep _) => true
  | _ => false

def isDispEv : Event → Bool
  | .dispatch _ _ => true
  | _ => false

def isActResEv : Event → Bool
  | .update (.actionResults _) => true
  | _ => false

def isCropEv (keep : Nat) : Event → Bool
  | .crop k => k == keep
  | _ => false

def isDispatchCmdEv : Event → Bool
  | .dispatchCmd _ _ => true
  | _ => false

def isSDREv (e : Event) : Bool := isSelEv e || isDispEv e || isActResEv e

/-- The subtrace of step-level events: `SelectedStep` emissions, tool
dispatches, `ActionResults` emissions. -/
def sdrOf (l : List Event) : List Event := l.filter isSDREv

def countSel (l : List Event) : Nat := (l.filter isSelEv).length

def countDisp (l : List Event) : Nat := (l.filter isDispEv).length

def countActRes (l : List Event) : Nat := (l.filter isActResEv).length

def countCrop (keep : Nat) (l : List Event) : Nat := (l.filter (isCropEv keep)).length

/-- Events produced by the summarization path (`add_memories`):
`SavedMemories` emissions and memory-store writes. -/
def MemEv (e : Event) : Prop :=
  (∃ m, e = .update (.savedMemories m)) ∨ (∃ t, e = .memoryStore t)

/-- not-SDR: the event is none of `SelectedStep`, dispatch, `ActionResults`. -/
def NotSDR (e : Event) : Prop := isSDREv e = false

/-- `x` only appends events satisfying `P` to the trace, whatever the
outcome. -/
def TraceP (P : Event → Prop) {α} (x : M α) : Prop :=
  ∀ s : RunState, ∃ Δ, (x s).2.trace = s.trace ++ Δ ∧ ∀ e ∈ Δ, P e

/-- `x` leaves the shared asset map unchanged, whatever the outcome. -/
def AssetsFrame {α} (x : M α) : Prop :=
  ∀ s : RunState, (x s).2.assets = s.assets

/-- The remaining-token estimate right after the tool result `out` has been
appended to the executor history — the quantity `run_method_agent` checks
against the 1200-token low-water mark. -/
def postAppendTokens (env : MEnv) (s : RunState) (out : String) : Int :=
  tokensRemainingFor env.cost env.contextSize
    (Agent.getMessages { s.agents.get env.getAgent with
      messageHistory := (s.agents.get env.getAgent).messageHistory ++ [Message.user out] })

/-- The event is not a dispatch against any agent other than `fast`. -/
def FastOK (e : Event) : Prop :=
  ∀ sel act, e = Event.dispatch sel act → sel = AgentName.fast

/-- The step-level subtrace a fully successful run of the step loop
produces: per step, its `SelectedStep` emission, one dispatch against the
fast agent, and one `ActionResults` emission. -/
def stepTriples : List MethodicalStep → List Action → List String → List Event
  | st :: sts, a :: al, o :: ol =>
      [Event.update (.selectedStep st), Event.dispatch .fast a,
        Event.update (.actionResults o)] ++ stepTriples sts al ol
  | _, _, _ => []

/-- Lookup in the association-list asset map. -/
def lookupAssoc (l : List (String × String)) (k : String) : Option String :=
  (l.find? (fun p => p.1 == k)).map Prod.snd

/-- The external oracles never fabricate a `disallowed` error themselves:
in the modelled runs only the gate produces denial errors. -/
def CleanEnv (env : MEnv) : Prop :=
  (∀ u r, env.sink u ≠ .error (.disallowed r)) ∧
  (∀ i r, env.thoughtsResult i ≠ .error (.disallowed r)) ∧
  (∀ i r, env.toolResult i ≠ .error (.disallowed r)) ∧
  (∀ i r, env.memoriesResult i ≠ .error (.disallowed r)) ∧
  (∀ i r, env.assetResult i ≠ .error (.disallowed r)) ∧
  (∀ m r, env.storeResult m ≠ .error (.disallowed r)) ∧
  (∀ r, env.planResult ≠ .error (.disallowed r)) ∧
  (∀ r, env.recallResult ≠ .error (.disallowed r))

theorem sdrOf_append (a b : List Event) : sdrOf (a ++ b) = sdrOf a ++ sdrOf b :=
  List.filter_append ..

theorem countSel_append (a b : List Event) :
    countSel (a ++ b) = countSel a + countSel b := by
  simp [countSel, List.filter_append]

theorem countDisp_append (a b : List Event) :
    countDisp (a ++ b) = countDisp a + countDisp b := by
  simp [countDisp, List.filter_append]

theorem countActRes_append (a b : List Event) :
    countActRes (a ++ b) = countActRes a + countActRes b := by
  simp [countActRes, List.filter_append]

theorem countCrop_append (keep : Nat) (a b : List Event) :
    countCrop keep (a ++ b) = countCrop keep a + countCrop keep b := by
  simp [countCrop, List.filter_append]

theorem MemEv_not_sdr {e : Event} (h : MemEv e) : isSDREv e = false := by
  rcases h with ⟨m, rfl⟩ | ⟨t, rfl⟩ <;> rfl

theorem MemEv_not_crop {e : Event} (keep : Nat) (h : MemEv e) :
    isCropEv keep e = false := by
  rcases h with ⟨m, rfl⟩ | ⟨t, rfl⟩ <;> rfl

theorem MemEv_not_disp {e : Event} (h : MemEv e) : isDispEv e = false := by
  rcases h with ⟨m, rfl⟩ | ⟨t, rfl⟩ <;> rfl

theorem sdrOf_of_forall_mem {l : List Event} (h : ∀ e ∈ l, MemEv e) :
    sdrOf l = [] := by
  induction l with
  | nil => rfl
  | cons e rest ih =>
      have he := MemEv_not_sdr (h e (by simp))
      simp only [sdrOf, List.filter_cons, he, if_neg]
      simpa [sdrOf] using ih (fun x hx => h x (by simp [hx]))

theorem countCrop_of_forall_mem {l : List Event} (keep : Nat)
    (h : ∀ e ∈ l, MemEv e) : countCrop keep l = 0 := by
  induction l with
  | nil => rfl
  | cons e rest ih =>
      have he := MemEv_not_crop keep (h e (by simp))
      simp only [countCrop, List.filter_cons, he, if_neg]
      simpa [countCrop] using ih (fun x hx => h x (by simp [hx]))

/-- Size after forced truncation fits within the requested bound. -/
theorem messagesSize_cropToFit (cost : Message → Nat) (keep : Nat)
    (l : List Message) : messagesSize cost (cropToFit cost keep l) ≤ keep := by
  induction l with
  | nil => simp [cropToFit, messagesSize]
  | cons m rest ih =>
      rw [cropToFit]
      split
      · assumption
      · exact ih

/-! ## Pointwise equations for the run primitives -/

theorem bind_apply (x : M α) (f : α → M β) (s : RunState) :
    (x >>= f) s = match x s with
      | (.ok a, s') => f a s'
      | (.error e, s') => (.error e, s') := rfl

theorem pure_apply (a : α) (s : RunState) :
    (Pure.pure (f := M) a) s = (.ok a, s) := rfl

theorem sinkUpdate_apply_ok {env : MEnv} {u : Update} (h : env.sink u = .ok ())
    (s : RunState) :
    sinkUpdate env u s = (.ok (), { s with trace := s.trace ++ [Event.update u] }) := by
  simp [sinkUpdate, h]

theorem sinkUpdate_apply_err {env : MEnv} {u : Update} {e : RunErr}
    (h : env.sink u = .error e) (s : RunState) :
    sinkUpdate env u s = (.error e, { s with trace := s.trace ++ [Event.update u] }) := by
  simp [sinkUpdate, h]

theorem sinkUpdate_snd (env : MEnv) (u : Update) (s : RunState) :
    (sinkUpdate env u s).2 = { s with trace := s.trace ++ [Event.update u] } := by
  unfold sinkUpdate
  rcases h : env.sink u with e | v <;> simp

/-- Inversion of a successful bind. -/
theorem bind_ok_inv {α β} {x : M α} {f : α → M β} {s s2 : RunState} {b : β}
    (h : (x >>= f) s = (.ok b, s2)) :
    ∃ a s1, x s = (.ok a, s1) ∧ f a s1 = (.ok b, s2) := by
  rw [bind_apply] at h
  rcases hp : x s with ⟨res, s1⟩
  rw [hp] at h
  rcases res with e | a
  · simp at h
  · exact ⟨a, s1, rfl, h⟩

theorem TraceP.bindStep {P : Event → Prop} {α β} {x : M α} {f : α → M β}
    (hx : TraceP P x) (hf : ∀ a, TraceP P (f a)) : TraceP P (x >>= f) := by
  intro s
  obtain ⟨Δ1, ht1, hm1⟩ := hx s
  rw [bind_apply]
  rcases hp : x s with ⟨res, s1⟩
  rw [hp] at ht1
  rcases res with e | a
  · exact ⟨Δ1, ht1, hm1⟩
  · obtain ⟨Δ2, ht2, hm2⟩ := hf a s1
    refine ⟨Δ1 ++ Δ2, ?_, ?_⟩
    · rw [ht2, ht1, List.append_assoc]
    · intro e he
      rcases List.mem_append.mp he with h1 | h2
      exacts [hm1 e h1, hm2 e h2]

theorem TraceP.of_trace_eq {P : Event → Prop} {α} {x : M α}
    (h : ∀ s, (x s).2.trace = s.trace) : TraceP P x := fun s =>
  ⟨[], by simp [h s], by simp⟩

theorem traceP_pure {P : Event → Prop} {α} (a : α) : TraceP P (M.pure a) :=
  TraceP.of_trace_eq (fun _ => rfl)

theorem traceP_pure' {P : Event → Prop} {α} (a : α) :
    TraceP P (Pure.pure (f := M) a) :=
  TraceP.of_trace_eq (fun _ => rfl)

theorem traceP_throw {P : Event → Prop} {α} (e : RunErr) :
    TraceP P (M.throw (α := α) e) :=
  TraceP.of_trace_eq (fun _ => rfl)

theorem traceP_emit {P : Event → Prop} {e : Event} (h : P e) :
    TraceP P (emit e) := fun s => ⟨[e], rfl, by simpa⟩

theorem traceP_sinkUpdate {P : Event → Prop} {env : MEnv} {u : Update}
    (h : P (.update u)) : TraceP P (sinkUpdate env u) := by
  intro s
  refine ⟨[.update u], ?_, by simpa⟩
  rw [sinkUpdate_snd]

theorem traceP_cropHistory {P : Event → Prop} {env : MEnv} {ag : AgentName}
    {keep : Nat} (h : P (.crop keep)) : TraceP P (cropHistory env ag keep) :=
  fun s => ⟨[.crop keep], rfl, by simpa⟩

theorem traceP_use_tool {P : Event → Prop} {env : MEnv} {sel : AgentName}
    {act : Action} (h : P (.dispatch sel act)) : TraceP P (use_tool env sel act) := by
  intro s
  refine ⟨[.dispatch sel act], ?_, by simpa⟩
  unfold use_tool
  rcases hr : env.toolResult s.dispatches with e | v <;> simp

theorem traceP_pushHistory {P : Event → Prop} (ag : AgentName) (m : Message) :
    TraceP P (pushHistory ag m) := TraceP.of_trace_eq (fun _ => rfl)

theorem traceP_pushPrompt {P : Event → Prop} (ag : AgentName) (m : Message) :
    TraceP P (pushPrompt ag m) := TraceP.of_trace_eq (fun _ => rfl)

theorem traceP_pushEndPrompt {P : Event → Prop} (ag : AgentName) (m : Message) :
    TraceP P (pushEndPrompt ag m) := TraceP.of_trace_eq (fun _ => rfl)

theorem traceP_popHistory {P : Event → Prop} (ag : AgentName) :
    TraceP P (popHistory ag) := TraceP.of_trace_eq (fun _ => rfl)

theorem traceP_clearHistory {P : Event → Prop} (ag : AgentName) :
    TraceP P (clearHistory ag) := TraceP.of_trace_eq (fun _ => rfl)

theorem traceP_clearPrompt {P : Event → Prop} (ag : AgentName) :
    TraceP P (clearPrompt ag) := TraceP.of_trace_eq (fun _ => rfl)

theorem traceP_setAsset {P : Event → Prop} (k v : String) :
    TraceP P (setAsset k v) := TraceP.of_trace_eq (fun _ => rfl)

theorem traceP_setAgentState {P : Event → Prop} (ag : AgentName) (a : Agent) :
    TraceP P (setAgentState ag a) := TraceP.of_trace_eq (fun _ => rfl)

theorem traceP_getAgentState {P : Event → Prop} (ag : AgentName) :
    TraceP P (getAgentState ag) := TraceP.of_trace_eq (fun _ => rfl)

theorem traceP_takeMemoriesIndex {P : Event → Prop} :
    TraceP P takeMemoriesIndex := TraceP.of_trace_eq (fun _ => rfl)

theorem traceP_attempt {P : Event → Prop} {α} {x : M α} (hx : TraceP P x) :
    TraceP P (M.attempt x) := by
  intro s
  obtain ⟨Δ, ht, hm⟩ := hx s
  refine ⟨Δ, ?_, hm⟩
  unfold M.attempt
  rcases hp : x s with ⟨res, s1⟩
  rw [hp] at ht
  rcases res with e | a <;> simpa using ht

theorem AssetsFrame.bindFrame {α β} {x : M α} {f : α → M β}
    (hx : AssetsFrame x) (hf : ∀ a, AssetsFrame (f a)) : AssetsFrame (x >>= f) := by
  intro s
  rw [bind_apply]
  have h1 := hx s
  rcases hp : x s with ⟨res, s1⟩
  rw [hp] at h1
  rcases res with e | a
  · exact h1
  · rw [hf a s1, h1]

theorem AssetsFrame.of_assets_eq {α} {x : M α}
    (h : ∀ s, (x s).2.assets = s.assets) : AssetsFrame x := h

theorem assetsFrame_attempt {α} {x : M α} (hx : AssetsFrame x) :
    AssetsFrame (M.attempt x) := by
  intro s
  have h1 := hx s
  unfold M.attempt
  rcases hp : x s with ⟨res, s1⟩
  rw [hp] at h1
  rcases res with e | a <;> simpa using h1

theorem assetsFrame_sinkUpdate (env : MEnv) (u : Update) :
    AssetsFrame (sinkUpdate env u) := by
  intro s
  rw [sinkUpdate_snd]

theorem assetsFrame_use_tool (env : MEnv) (sel : AgentName) (act : Action) :
    AssetsFrame (use_tool env sel act) := by
  intro s
  unfold use_tool
  rcases hr : env.toolResult s.dispatches with e | v <;> simp

theorem assetsFrame_pure {α} (a : α) : AssetsFrame (M.pure a) := fun _ => rfl

theorem assetsFrame_pure' {α} (a : α) : AssetsFrame (Pure.pure (f := M) a) :=
  fun _ => rfl

theorem assetsFrame_throw {α} (e : RunErr) : AssetsFrame (M.throw (α := α) e) :=
  fun _ => rfl

theorem assetsFrame_emit (e : Event) : AssetsFrame (emit e) := fun _ => rfl

theorem assetsFrame_pushHistory (ag : AgentName) (m : Message) :
    AssetsFrame (pushHistory ag m) := fun _ => rfl

theorem assetsFrame_pushPrompt (ag : AgentName) (m : Message) :
    AssetsFrame (pushPrompt ag m) := fun _ => rfl

theorem assetsFrame_pushEndPrompt (ag : AgentName) (m : Message) :
    AssetsFrame (pushEndPrompt ag m) := fun _ => rfl

theorem assetsFrame_popHistory (ag : AgentName) : AssetsFrame (popHistory ag) :=
  fun _ => rfl

theorem assetsFrame_clearHistory (ag : AgentName) : AssetsFrame (clearHistory ag) :=
  fun _ => rfl

theorem assetsFrame_clearPrompt (ag : AgentName) : AssetsFrame (clearPrompt ag) :=
  fun _ => rfl

theorem assetsFrame_setAgentState (ag : AgentName) (a : Agent) :
    AssetsFrame (setAgentState ag a) := fun _ => rfl

theorem assetsFrame_getAgentState (ag : AgentName) :
    AssetsFrame (getAgentState ag) := fun _ => rfl

theorem assetsFrame_takeMemoriesIndex : AssetsFrame takeMemoriesIndex :=
  fun _ => rfl

theorem assetsFrame_cropHistory (env : MEnv) (ag : AgentName) (keep : Nat) :
    AssetsFrame (cropHistory env ag keep) := fun _ => rfl

/-! ## Frame facts for the summarization path -/

theorem assetsFrame_storeMemories (env : MEnv) :
    ∀ l, AssetsFrame (storeMemories env l) := by
  intro l
  induction l with
  | nil => exact assetsFrame_pure ()
  | cons mem rest ih =>
      rw [storeMemories]
      refine AssetsFrame.bindFrame (assetsFrame_emit _) (fun _ => ?_)
      rcases env.storeResult mem with e | v
      · exact assetsFrame_throw e
      · exact ih

theorem assetsFrame_add_memories (env : MEnv) (ag : AgentName) :
    AssetsFrame (add_memories env ag) := by
  rw [add_memories]
  refine AssetsFrame.bindFrame (assetsFrame_pushHistory _ _) (fun _ => ?_)
  refine AssetsFrame.bindFrame assetsFrame_takeMemoriesIndex (fun idx => ?_)
  rcases env.memoriesResult idx with e | parsed
  · exact assetsFrame_throw e
  · exact AssetsFrame.bindFrame (assetsFrame_sinkUpdate _ _)
      (fun _ => assetsFrame_storeMemories env _)

theorem assetsFrame_budgetFlush (env : MEnv) : AssetsFrame (budgetFlush env) := by
  rw [budgetFlush]
  refine AssetsFrame.bindFrame (assetsFrame_attempt (assetsFrame_add_memories env _))
    (fun r => ?_)
  rcases r with e | v
  · exact AssetsFrame.bindFrame (assetsFrame_cropHistory _ _ _)
      (fun _ => assetsFrame_cropHistory _ _ _)
  · exact AssetsFrame.bindFrame (assetsFrame_pure ())
      (fun _ => assetsFrame_cropHistory _ _ _)

theorem assetsFrame_handleToolSuccess (env : MEnv) (out : String) :
    AssetsFrame (handleToolSuccess env out) := by
  rw [handleToolSuccess]
  refine AssetsFrame.bindFrame (assetsFrame_sinkUpdate _ _) (fun _ => ?_)
  refine AssetsFrame.bindFrame (assetsFrame_emit _) (fun _ => ?_)
  refine AssetsFrame.bindFrame (assetsFrame_pushHistory _ _) (fun _ => ?_)
  refine AssetsFrame.bindFrame (assetsFrame_getAgentState _) (fun a => ?_)
  refine AssetsFrame.bindFrame (assetsFrame_emit _) (fun _ => ?_)
  split
  · exact assetsFrame_budgetFlush env
  · exact assetsFrame_pure ()

theorem assetsFrame_stepBody (env : MEnv) (i : Nat) (step : MethodicalStep) :
    AssetsFrame (stepBody env i step) := by
  rw [stepBody]
  refine AssetsFrame.bindFrame (assetsFrame_sinkUpdate _ _) (fun _ => ?_)
  refine AssetsFrame.bindFrame (assetsFrame_pushHistory _ _) (fun _ => ?_)
  rcases env.thoughtsResult i with e | parsed
  · exact assetsFrame_throw e
  · refine AssetsFrame.bindFrame (assetsFrame_pushHistory _ _) (fun _ => ?_)
    refine AssetsFrame.bindFrame (assetsFrame_sinkUpdate _ _) (fun _ => ?_)
    rcases env.allowAction parsed.data.action with _ | reason
    · exact AssetsFrame.bindFrame (assetsFrame_use_tool _ _ _)
        (fun out => assetsFrame_handleToolSuccess env out)
    · exact assetsFrame_throw _

theorem assetsFrame_runSteps (env : MEnv) :
    ∀ steps i, AssetsFrame (runSteps env i steps) := by
  intro steps
  induction steps with
  | nil => intro i; exact assetsFrame_pure ()
  | cons st rest ih =>
      intro i
      rw [runSteps]
      exact AssetsFrame.bindFrame (assetsFrame_stepBody env i st) (fun _ => ih (i + 1))

/-! ## Parametric trace lemmas for the summarization and flush paths -/

theorem traceP_storeMemories {P : Event → Prop} (env : MEnv)
    (h : ∀ m, P (.memoryStore m)) : ∀ l, TraceP P (storeMemories env l) := by
  intro l
  induction l with
  | nil => exact traceP_pure ()
  | cons mem rest ih =>
      rw [storeMemories]
      refine TraceP.bindStep (traceP_emit (h mem)) (fun _ => ?_)
      rcases env.storeResult mem with e | v
      · exact traceP_throw e
      · exact ih

theorem traceP_add_memories {P : Event → Prop} (env : MEnv) (ag : AgentName)
    (h1 : ∀ m, P (.update (.savedMemories m))) (h2 : ∀ t, P (.memoryStore t)) :
    TraceP P (add_memories env ag) := by
  rw [add_memories]
  refine TraceP.bindStep (traceP_pushHistory _ _) (fun _ => ?_)
  refine TraceP.bindStep traceP_takeMemoriesIndex (fun idx => ?_)
  rcases env.memoriesResult idx with e | parsed
  · exact traceP_throw e
  · exact TraceP.bindStep (traceP_sinkUpdate (h1 parsed.data))
      (fun _ => traceP_storeMemories env h2 _)

theorem traceP_budgetFlush {P : Event → Prop} (env : MEnv)
    (h1 : ∀ m, P (.update (.savedMemories m))) (h2 : ∀ t, P (.memoryStore t))
    (h3 : ∀ keep, P (.crop keep)) : TraceP P (budgetFlush env) := by
  rw [budgetFlush]
  refine TraceP.bindStep (traceP_attempt (traceP_add_memories env _ h1 h2)) (fun r => ?_)
  rcases r with e | v
  · exact TraceP.bindStep (traceP_cropHistory (h3 1000))
      (fun _ => traceP_cropHistory (h3 2000))
  · exact TraceP.bindStep (traceP_pure ())
      (fun _ => traceP_cropHistory (h3 2000))

@[simp]
theorem Agents.get_set_same (a : Agents) (n : AgentName) (x : Agent) :
    (a.set n x).get n = x := by
  cases n <;> rfl

theorem Agents.get_set_other (a : Agents) {n m : AgentName} (x : Agent)
    (h : n ≠ m) : (a.set n x).get m = a.get m := by
  cases n <;> cases m <;> first | rfl | exact absurd rfl h

/-- Comprehensive behaviour of the budget-flush cycle: it always succeeds,
leaves the asset map alone, leaves the executor history within the
2000-token high-water mark, and appends exactly one crop-to-2000 to the
trace, with no step-level events. -/
theorem budgetFlush_spec (env : MEnv) (s : RunState) :
    (budgetFlush env s).1 = .ok () ∧
    (budgetFlush env s).2.assets = s.assets ∧
    messagesSize env.cost
      (((budgetFlush env s).2.agents.get env.getAgent).messageHistory) ≤ 2000 ∧
    ∃ Δ, (budgetFlush env s).2.trace = s.trace ++ Δ ∧
      countCrop 2000 Δ = 1 ∧ (∀ e ∈ Δ, NotSDR e) := by
  obtain ⟨Δ1, ht1, hm1⟩ := traceP_add_memories (P := MemEv) env env.getAgent
    (fun m => Or.inl ⟨m, rfl⟩) (fun t => Or.inr ⟨t, rfl⟩) s
  have ha0 := assetsFrame_add_memories env env.getAgent s
  have hcount1 : countCrop 2000 Δ1 = 0 := countCrop_of_forall_mem 2000 hm1
  have hsdr1 : ∀ e ∈ Δ1, NotSDR e := fun e he => MemEv_not_sdr (hm1 e he)
  rw [budgetFlush, bind_apply]
  rcases hp : add_memories env env.getAgent s with ⟨res, s1⟩
  rw [hp] at ht1 ha0
  have ht1' : s1.trace = s.trace ++ Δ1 := ht1
  have ha0' : s1.assets = s.assets := ha0
  simp only [M.attempt, hp]
  rcases res with e | v
  · refine ⟨by simp [bind_apply, cropHistory],
      by simp [bind_apply, cropHistory, ha0'],
      ?_, Δ1 ++ [.crop 1000, .crop 2000], ?_, ?_, ?_⟩
    · simp [bind_apply, cropHistory]
      simpa using messagesSize_cropToFit env.cost 2000 _
    · simp [bind_apply, cropHistory, ht1']
    · rw [countCrop_append, hcount1]
      decide
    · intro e' he'
      rcases List.mem_append.mp he' with h1 | h2
      · exact hsdr1 e' h1
      · simp only [List.mem_cons, List.not_mem_nil, or_false] at h2
        rcases h2 with rfl | rfl <;> rfl
  · refine ⟨by simp [bind_apply, cropHistory, M.pure],
      by simp [bind_apply, cropHistory, M.pure, ha0'],
      ?_, Δ1 ++ [.crop 2000], ?_, ?_, ?_⟩
    · simp [bind_apply, cropHistory, M.pure]
      simpa using messagesSize_cropToFit env.cost 2000 _
    · simp [bind_apply, cropHistory, M.pure, ht1']
    · rw [countCrop_append, hcount1]
      decide
    · intro e' he'
      rcases List.mem_append.mp he' with h1 | h2
      · exact hsdr1 e' h1
      · simp only [List.mem_cons, List.not_mem_nil, or_false] at h2
        rcases h2 with rfl
        rfl

/-- Behaviour of the conditional flush at the end of the tool-success
continuation, for an arbitrary condition. -/
theorem flushOrNot_spec (env : MEnv) (c : Prop) [Decidable c] (s3 : RunState) :
    ((if c then budgetFlush env else M.pure ()) s3).1 = .ok () ∧
    ((if c then budgetFlush env else M.pure ()) s3).2.assets = s3.assets ∧
    ∃ Δ, ((if c then budgetFlush env else M.pure ()) s3).2.trace = s3.trace ++ Δ ∧
      (∀ e ∈ Δ, NotSDR e) ∧
      (c → countCrop 2000 Δ = 1 ∧
        messagesSize env.cost
          ((((if c then budgetFlush env else M.pure ()) s3).2.agents.get
            env.getAgent).messageHistory) ≤ 2000) ∧
      (¬ c → ((if c then budgetFlush env else M.pure ()) s3).2 = s3 ∧ Δ = []) := by
  by_cases hc : c
  · simp only [if_pos hc]
    obtain ⟨h1, h2, h3, Δ, ht, hcnt, hsdr⟩ := budgetFlush_spec env s3
    exact ⟨h1, h2, Δ, ht, hsdr, fun _ => ⟨hcnt, h3⟩, fun hnc => absurd hc hnc⟩
  · simp only [if_neg hc]
    exact ⟨rfl, rfl, [], by simp [M.pure], by simp,
      fun hcc => absurd hcc hc, fun _ => ⟨rfl, rfl⟩⟩

/-- Comprehensive behaviour of the tool-success continuation when the
`ActionResults` emission is accepted by the sink: the run continues, the
asset map is untouched, and the trace grows by the `ActionResults`
emission, then the history append, then the budget check, followed by a
flush segment exactly when the remaining-token estimate after the append
is below 1200. -/
theorem handleToolSuccess_spec (env : MEnv) (out : String) (s : RunState)
    (hsink : env.sink (.actionResults out) = .ok ()) :
    (handleToolSuccess env out s).1 = .ok () ∧
    (handleToolSuccess env out s).2.assets = s.assets ∧
    ∃ Δ, (handleToolSuccess env out s).2.trace
        = s.trace ++ [Event.update (.actionResults out), Event.toolResultAppend out,
            Event.budgetCheck (postAppendTokens env s out)] ++ Δ ∧
      (∀ e ∈ Δ, NotSDR e) ∧
      (postAppendTokens env s out < 1200 →
        countCrop 2000 Δ = 1 ∧
        messagesSize env.cost
          (((handleToolSuccess env out s).2.agents.get env.getAgent).messageHistory)
          ≤ 2000) ∧
      (¬ postAppendTokens env s out < 1200 → Δ = []) := by
  have e1 : handleToolSuccess env out s =
      (if tokensRemainingFor env.cost env.contextSize
            (Agent.getMessages ((s.agents.set env.getAgent
              { s.agents.get env.getAgent with messageHistory :=
                  (s.agents.get env.getAgent).messageHistory ++ [Message.user out] }).get
              env.getAgent)) < 1200
        then budgetFlush env else M.pure ())
        { s with
          agents := s.agents.set env.getAgent
            { s.agents.get env.getAgent with messageHistory :=
                (s.agents.get env.getAgent).messageHistory ++ [Message.user out] },
          trace := ((s.trace ++ [Event.update (.actionResults out)])
              ++ [Event.toolResultAppend out])
            ++ [Event.budgetCheck (tokensRemainingFor env.cost env.contextSize
                (Agent.getMessages ((s.agents.set env.getAgent
                  { s.agents.get env.getAgent with messageHistory :=
                      (s.agents.get env.getAgent).messageHistory ++ [Message.user out] }).get
                  env.getAgent)))] } := by
    rw [handleToolSuccess, bind_apply, sinkUpdate_apply_ok hsink]
    rfl
  simp only [Agents.get_set_same] at e1
  simp only [postAppendTokens]
  rw [e1]
  obtain ⟨h1, h2, Δ, ht, hsdr, hlow, hhigh⟩ := flushOrNot_spec env
    (tokensRemainingFor env.cost env.contextSize
      (Agent.getMessages { s.agents.get env.getAgent with messageHistory :=
          (s.agents.get env.getAgent).messageHistory ++ [Message.user out] }) < 1200)
    { s with
      agents := s.agents.set env.getAgent
        { s.agents.get env.getAgent with messageHistory :=
            (s.agents.get env.getAgent).messageHistory ++ [Message.user out] },
      trace := ((s.trace ++ [Event.update (.actionResults out)])
          ++ [Event.toolResultAppend out])
        ++ [Event.budgetCheck (tokensRemainingFor env.cost env.contextSize
            (Agent.getMessages { s.agents.get env.getAgent with messageHistory :=
                (s.agents.get env.getAgent).messageHistory ++ [Message.user out] }))] }
  refine ⟨h1, by simpa using h2, Δ, ?_, hsdr, fun hc => hlow hc,
    fun hc => (hhigh hc).2⟩
  rw [ht]
  simp [List.append_assoc]

/-! ## Inversion helpers -/

theorem bind_err_inv {α β} {x : M α} {f : α → M β} {s s2 : RunState} {er : RunErr}
    (h : (x >>= f) s = (.error er, s2)) :
    x s = (.error er, s2) ∨ ∃ a s1, x s = (.ok a, s1) ∧ f a s1 = (.error er, s2) := by
  rw [bind_apply] at h
  rcases hp : x s with ⟨res, s1⟩
  rw [hp] at h
  rcases res with e | a
  · have h' : e = er ∧ s1 = s2 := by
      simpa [Prod.ext_iff] using h
    rcases h' with ⟨rfl, rfl⟩
    exact Or.inl rfl
  · exact Or.inr ⟨a, s1, rfl, h⟩

theorem throw_ne_ok {α} {e : RunErr} {s s' : RunState} {a : α} :
    M.throw e s ≠ (.ok a, s') := by
  simp [M.throw, Prod.ext_iff]

theorem throw_err_inv {α} {e er : RunErr} {s s' : RunState}
    (h : M.throw (α := α) e s = (.error er, s')) : e = er ∧ s' = s := by
  simpa [M.throw, Prod.ext_iff, eq_comm] using h

theorem sinkUpdate_ok_inv {env : MEnv} {u : Update} {s s' : RunState} {a : Unit}
    (h : sinkUpdate env u s = (.ok a, s')) :
    env.sink u = .ok () ∧ s' = { s with trace := s.trace ++ [Event.update u] } := by
  unfold sinkUpdate at h
  rcases hs : env.sink u with e | v
  · rw [hs] at h
    simp [Prod.ext_iff] at h
  · rw [hs] at h
    simp only [Prod.ext_iff] at h
    exact ⟨rfl, h.2.symm⟩

theorem sinkUpdate_err_inv {env : MEnv} {u : Update} {s s' : RunState} {er : RunErr}
    (h : sinkUpdate env u s = (.error er, s')) :
    env.sink u = .error er ∧ s' = { s with trace := s.trace ++ [Event.update u] } := by
  unfold sinkUpdate at h
  rcases hs : env.sink u with e | v
  · rw [hs] at h
    simp only [Prod.ext_iff, Except.error.injEq] at h
    exact ⟨by rw [h.1], h.2.symm⟩
  · rw [hs] at h
    simp [Prod.ext_iff] at h

theorem pushHistory_apply (n : AgentName) (m : Message) (s : RunState) :
    pushHistory n m s =
      (.ok (),
       { s with
         agents := s.agents.set n
           ({ s.agents.get n with
              messageHistory := (s.agents.get n).messageHistory ++ [m] }) }) := rfl

theorem use_tool_ok_inv {env : MEnv} {sel : AgentName} {act : Action}
    {s s' : RunState} {out : String}
    (h : use_tool env sel act s = (.ok out, s')) :
    env.toolResult s.dispatches = .ok out ∧
    s' = { s with trace := s.trace ++ [Event.dispatch sel act],
                  dispatches := s.dispatches + 1 } := by
  unfold use_tool at h
  rcases hr : env.toolResult s.dispatches with e | v
  · rw [hr] at h
    simp [Prod.ext_iff] at h
  · rw [hr] at h
    simp only [Prod.ext_iff, Except.ok.injEq] at h
    exact ⟨by rw [h.1], h.2.symm⟩

theorem use_tool_err_inv {env : MEnv} {sel : AgentName} {act : Action}
    {s s' : RunState} {er : RunErr}
    (h : use_tool env sel act s = (.error er, s')) :
    env.toolResult s.dispatches = .error er := by
  unfold use_tool at h
  rcases hr : env.toolResult s.dispatches with e | v
  · rw [hr] at h
    simp only [Prod.ext_iff, Except.error.injEq] at h
    rw [h.1]
  · rw [hr] at h
    simp [Prod.ext_iff] at h

theorem handleToolSuccess_err_inv {env : MEnv} {out : String} {s s' : RunState}
    {er : RunErr} (h : handleToolSuccess env out s = (.error er, s')) :
    env.sink (.actionResults out) = .error er := by
  rcases hs : env.sink (.actionResults out) with e | v
  · rw [handleToolSuccess, bind_apply, sinkUpdate_apply_err hs] at h
    simp only [Prod.ext_iff, Except.error.injEq] at h
    rw [h.1]
  · obtain ⟨h1, -⟩ := handleToolSuccess_spec env out s (by rw [hs])
    rw [h] at h1
    simp at h1

theorem sdrOf_eq_nil {l : List Event} (h : ∀ e ∈ l, NotSDR e) : sdrOf l = [] := by
  induction l with
  | nil => rfl
  | cons e rest ih =>
      have he : isSDREv e = false := h e (by simp)
      simp only [sdrOf, List.filter_cons, he, if_neg]
      simpa [sdrOf] using ih (fun x hx => h x (by simp [hx]))

/-! ## Step-level characterizations -/

/-- A successfully executed step contributes exactly one `SelectedStep`
emission, then one dispatch against the fast agent, then one
`ActionResults` emission to the step-level subtrace, and leaves the asset
map unchanged. -/
theorem stepBody_ok_sdr {env : MEnv} {i : Nat} {step : MethodicalStep}
    {s s' : RunState} {u : Unit} (h : stepBody env i step s = (.ok u, s')) :
    s'.assets = s.assets ∧
    ∃ a outS, sdrOf s'.trace = sdrOf s.trace ++
      [Event.update (.selectedStep step), Event.dispatch .fast a,
        Event.update (.actionResults outS)] := by
  have hassets := assetsFrame_stepBody env i step s
  rw [h] at hassets
  refine ⟨hassets, ?_⟩
  rw [stepBody] at h
  obtain ⟨u1, s1, hA, h⟩ := bind_ok_inv h
  obtain ⟨hsinkSel, hs1⟩ := sinkUpdate_ok_inv hA
  subst hs1
  obtain ⟨u2, s2, hB, h⟩ := bind_ok_inv h
  rw [pushHistory_apply] at hB
  simp only [Prod.ext_iff, Except.ok.injEq] at hB
  obtain ⟨-, hs2⟩ := hB
  subst hs2
  rcases hth : env.thoughtsResult i with e | parsed
  · rw [hth] at h
    exact absurd h throw_ne_ok
  · rw [hth] at h
    obtain ⟨u3, s3, hC, h⟩ := bind_ok_inv h
    rw [pushHistory_apply] at hC
    simp only [Prod.ext_iff, Except.ok.injEq] at hC
    obtain ⟨-, hs3⟩ := hC
    subst hs3
    obtain ⟨u4, s4, hD, h⟩ := bind_ok_inv h
    obtain ⟨hsinkTh, hs4⟩ := sinkUpdate_ok_inv hD
    subst hs4
    rcases hg : env.allowAction parsed.data.action with _ | reason
    · rw [hg] at h
      obtain ⟨out, s5, hU, h⟩ := bind_ok_inv h
      obtain ⟨htool, hs5⟩ := use_tool_ok_inv hU
      subst hs5
      have hsink3 : env.sink (.actionResults out) = .ok () := by
        rcases hs : env.sink (.actionResults out) with e2 | v2
        · rw [handleToolSuccess, bind_apply, sinkUpdate_apply_err hs] at h
          simp [Prod.ext_iff] at h
        · rfl
      obtain ⟨-, -, Δb, htb, hsdrb, -, -⟩ := handleToolSuccess_spec env out _ hsink3
      rw [h] at htb
      refine ⟨parsed.data.action, out, ?_⟩
      rw [htb]
      simp [sdrOf_append, sdrOf, isSDREv, isSelEv, isDispEv, isActResEv]
      intro a ha
      have h5 := hsdrb a ha
      simp only [NotSDR, isSDREv, isSelEv, isDispEv, isActResEv,
        Bool.or_eq_false_iff] at h5
      exact h5
    · rw [hg] at h
      exact absurd h throw_ne_ok

/-- Under a clean environment (no oracle fabricates `disallowed` errors),
a step that fails with a `disallowed` error fails at the gate: the
step-level subtrace gains only the `SelectedStep` emission — no dispatch,
no `ActionResults` — and the asset map is unchanged. -/
theorem stepBody_disallowed_sdr {env : MEnv} {i : Nat} {step : MethodicalStep}
    {s s' : RunState} {r : String} (clean : CleanEnv env)
    (h : stepBody env i step s = (.error (.disallowed r), s')) :
    s'.assets = s.assets ∧
    sdrOf s'.trace = sdrOf s.trace ++ [Event.update (.selectedStep step)] := by
  have hassets := assetsFrame_stepBody env i step s
  rw [h] at hassets
  refine ⟨hassets, ?_⟩
  rw [stepBody] at h
  rcases bind_err_inv h with hA | ⟨u1, s1, hA, h⟩
  · obtain ⟨hs, -⟩ := sinkUpdate_err_inv hA
    exact absurd hs (clean.1 _ r)
  · obtain ⟨hsinkSel, hs1⟩ := sinkUpdate_ok_inv hA
    subst hs1
    rcases bind_err_inv h with hB | ⟨u2, s2, hB, h⟩
    · rw [pushHistory_apply] at hB
      simp [Prod.ext_iff] at hB
    · rw [pushHistory_apply] at hB
      simp only [Prod.ext_iff, Except.ok.injEq] at hB
      obtain ⟨-, hs2⟩ := hB
      subst hs2
      rcases hth : env.thoughtsResult i with e | parsed
      · rw [hth] at h
        obtain ⟨he, -⟩ := throw_err_inv h
        rw [he] at hth
        exact absurd hth (clean.2.1 i r)
      · rw [hth] at h
        rcases bind_err_inv h with hC | ⟨u3, s3, hC, h⟩
        · rw [pushHistory_apply] at hC
          simp [Prod.ext_iff] at hC
        · rw [pushHistory_apply] at hC
          simp only [Prod.ext_iff, Except.ok.injEq] at hC
          obtain ⟨-, hs3⟩ := hC
          subst hs3
          rcases bind_err_inv h with hD | ⟨u4, s4, hD, h⟩
          · obtain ⟨hs, -⟩ := sinkUpdate_err_inv hD
            exact absurd hs (clean.1 _ r)
          · obtain ⟨hsinkTh, hs4⟩ := sinkUpdate_ok_inv hD
            subst hs4
            rcases hg : env.allowAction parsed.data.action with _ | reason
            · rw [hg] at h
              rcases bind_err_inv h with hU | ⟨out, s5, hU, h⟩
              · have hu := use_tool_err_inv hU
                exact absurd hu (clean.2.2.1 _ r)
              · obtain ⟨-, hs5⟩ := use_tool_ok_inv hU
                subst hs5
                have hsk := handleToolSuccess_err_inv h
                exact absurd hsk (clean.1 _ r)
            · rw [hg] at h
              obtain ⟨-, hs'⟩ := throw_err_inv h
              subst hs'
              simp [sdrOf_append, sdrOf, isSDREv, isSelEv, isDispEv, isActResEv]

/-! ## Counting the step-level subtrace -/

theorem isSel_and_sdr (e : Event) : (isSelEv e && isSDREv e) = isSelEv e := by
  cases e with
  | update u => cases u <;> rfl
  | dispatch sel act => rfl
  | toolResultAppend o => rfl
  | budgetCheck t => rfl
  | crop k => rfl
  | memoryStore m => rfl
  | cmdLookup n => rfl
  | dispatchCmd n a => rfl

theorem isDisp_and_sdr (e : Event) : (isDispEv e && isSDREv e) = isDispEv e := by
  cases e with
  | update u => cases u <;> rfl
  | dispatch sel act => rfl
  | toolResultAppend o => rfl
  | budgetCheck t => rfl
  | crop k => rfl
  | memoryStore m => rfl
  | cmdLookup n => rfl
  | dispatchCmd n a => rfl

theorem isActRes_and_sdr (e : Event) : (isActResEv e && isSDREv e) = isActResEv e := by
  cases e with
  | update u => cases u <;> rfl
  | dispatch sel act => rfl
  | toolResultAppend o => rfl
  | budgetCheck t => rfl
  | crop k => rfl
  | memoryStore m => rfl
  | cmdLookup n => rfl
  | dispatchCmd n a => rfl

theorem countSel_sdrOf (l : List Event) : countSel (sdrOf l) = countSel l := by
  unfold countSel sdrOf
  rw [List.filter_filter]
  congr 1
  exact List.filter_congr (fun e _ => isSel_and_sdr e)

theorem countDisp_sdrOf (l : List Event) : countDisp (sdrOf l) = countDisp l := by
  unfold countDisp sdrOf
  rw [List.filter_filter]
  congr 1
  exact List.filter_congr (fun e _ => isDisp_and_sdr e)

theorem countActRes_sdrOf (l : List Event) : countActRes (sdrOf l) = countActRes l := by
  unfold countActRes sdrOf
  rw [List.filter_filter]
  congr 1
  exact List.filter_congr (fun e _ => isActRes_and_sdr e)

theorem counts_stepTriples :
    ∀ (steps : List MethodicalStep) (al : List Action) (ol : List String),
      al.length = steps.length → ol.length = steps.length →
      countSel (stepTriples steps al ol) = steps.length ∧
      countDisp (stepTriples steps al ol) = steps.length ∧
      countActRes (stepTriples steps al ol) = steps.length := by
  intro steps
  induction steps with
  | nil =>
      intro al ol h1 h2
      simp [stepTriples, countSel, countDisp, countActRes]
  | cons st sts ih =>
      intro al ol h1 h2
      rcases al with _ | ⟨a, al⟩
      · simp at h1
      rcases ol with _ | ⟨o, ol⟩
      · simp at h2
      obtain ⟨c1, c2, c3⟩ := ih al ol (by simpa using h1) (by simpa using h2)
      simp only [stepTriples]
      refine ⟨?_, ?_, ?_⟩
      · rw [List.cons_append, List.cons_append, List.singleton_append,
          show ∀ t, countSel (Event.update (Update.selectedStep st) ::
            Event.dispatch .fast a :: Event.update (.actionResults o) :: t)
            = countSel t + 1 from fun t => by simp [countSel, isSelEv], c1]
        simp
      · rw [List.cons_append, List.cons_append, List.singleton_append,
          show ∀ t, countDisp (Event.update (Update.selectedStep st) ::
            Event.dispatch .fast a :: Event.update (.actionResults o) :: t)
            = countDisp t + 1 from fun t => by simp [countDisp, isDispEv], c2]
        simp
      · rw [List.cons_append, List.cons_append, List.singleton_append,
          show ∀ t, countActRes (Event.update (Update.selectedStep st) ::
            Event.dispatch .fast a :: Event.update (.actionResults o) :: t)
            = countActRes t + 1 from fun t => by simp [countActRes, isActResEv], c3]
        simp

/-! ## The step loop -/

theorem runSteps_ok_sdr {env : MEnv} :
    ∀ (steps : List MethodicalStep) (i : Nat) {s s' : RunState} {u : Unit},
      runSteps env i steps s = (.ok u, s') →
      s'.assets = s.assets ∧
      ∃ al ol, al.length = steps.length ∧ ol.length = steps.length ∧
        sdrOf s'.trace = sdrOf s.trace ++ stepTriples steps al ol := by
  intro steps
  induction steps with
  | nil =>
      intro i s s' u h
      simp only [runSteps, M.pure, Prod.ext_iff] at h
      obtain ⟨-, rfl⟩ := h
      exact ⟨rfl, [], [], rfl, rfl, by simp [stepTriples]⟩
  | cons st sts ih =>
      intro i s s' u h
      rw [runSteps] at h
      obtain ⟨u1, s1, hA, h⟩ := bind_ok_inv h
      obtain ⟨ha1, a, o, hsdr1⟩ := stepBody_ok_sdr hA
      obtain ⟨ha2, al, ol, hl1, hl2, hsdr2⟩ := ih (i + 1) h
      refine ⟨by rw [ha2, ha1], a :: al, o :: ol, by simp [hl1], by simp [hl2], ?_⟩
      rw [hsdr2, hsdr1]
      simp [stepTriples, List.append_assoc]

theorem runSteps_disallowed_counts {env : MEnv} (clean : CleanEnv env) :
    ∀ (steps : List MethodicalStep) (i : Nat) {s s' : RunState} {r : String},
      runSteps env i steps s = (.error (.disallowed r), s') →
      s'.assets = s.assets ∧
      countSel s'.trace + countDisp s.trace
        = countSel s.trace + countDisp s'.trace + 1 ∧
      countActRes s'.trace + countDisp s.trace
        = countActRes s.trace + countDisp s'.trace := by
  intro steps
  induction steps with
  | nil =>
      intro i s s' r h
      simp [runSteps, M.pure, Prod.ext_iff] at h
  | cons st sts ih =>
      intro i s s' r h
      rw [runSteps] at h
      rcases bind_err_inv h with hA | ⟨u1, s1, hA, h⟩
      · obtain ⟨ha1, hsdr1⟩ := stepBody_disallowed_sdr clean hA
        have c1 : countSel s'.trace = countSel s.trace + 1 := by
          rw [← countSel_sdrOf s'.trace, hsdr1, countSel_append, countSel_sdrOf]
          simp [countSel, isSelEv]
        have c2 : countDisp s'.trace = countDisp s.trace := by
          rw [← countDisp_sdrOf s'.trace, hsdr1, countDisp_append, countDisp_sdrOf]
          simp [countDisp, isDispEv]
        have c3 : countActRes s'.trace = countActRes s.trace := by
          rw [← countActRes_sdrOf s'.trace, hsdr1, countActRes_append,
            countActRes_sdrOf]
          simp [countActRes, isActResEv]
        exact ⟨ha1, by omega, by omega⟩
      · obtain ⟨ha1, a, o, hsdr1⟩ := stepBody_ok_sdr hA
        have c1 : countSel s1.trace = countSel s.trace + 1 := by
          rw [← countSel_sdrOf s1.trace, hsdr1, countSel_append, countSel_sdrOf]
          simp [countSel, isSelEv]
        have c2 : countDisp s1.trace = countDisp s.trace + 1 := by
          rw [← countDisp_sdrOf s1.trace, hsdr1, countDisp_append, countDisp_sdrOf]
          simp [countDisp, isDispEv]
        have c3 : countActRes s1.trace = countActRes s.trace + 1 := by
          rw [← countActRes_sdrOf s1.trace, hsdr1, countActRes_append,
            countActRes_sdrOf]
          simp [countActRes, isActResEv]
        obtain ⟨ha2, d1, d2⟩ := ih (i + 1) h
        exact ⟨ha2.trans ha1, by omega, by omega⟩

/-! ## Decomposing the whole methodical run -/

/-- Either the planning prefix fails (with an error coming from the recall,
the plan parse, or the update sink), or it succeeds and the run continues
from an intermediate state that has the same assets as the initial state
and has gained no step-level events. -/
theorem run_prefix_inv {env : MEnv} {s0 s' : RunState} {res : Except RunErr String}
    (h : run_method_agent env s0 = (res, s')) :
    (∃ er, res = .error er ∧
      (env.recallResult = .error er ∨ env.planResult = .error er ∨
        ∃ u, env.sink u = .error er)) ∨
    (∃ obs parsed smid, env.recallResult = .ok obs ∧ env.planResult = .ok parsed ∧
      env.sink (.plan parsed.data) = .ok () ∧
      (runSteps env 0 parsed.data.steps >>= fun _ =>
        runAssets env 0 parsed.data.assets >>= fun changed =>
        add_memories env env.getAgent >>= fun _ =>
        M.pure (assetDigest changed)) smid = (res, s') ∧
      smid.assets = s0.assets ∧ sdrOf smid.trace = sdrOf s0.trace) := by
  rw [run_method_agent] at h
  simp only [bind_apply, clearHistory, pushPrompt] at h
  rcases hrec : env.recallResult with e | obs
  · rw [hrec] at h
    simp only [M.throw, Prod.ext_iff] at h
    exact Or.inl ⟨e, h.1.symm, Or.inl rfl⟩
  · rw [hrec] at h
    simp only [bind_apply, pushPrompt] at h
    rcases hplan : env.planResult with e | parsed
    · rw [hplan] at h
      simp only [M.throw, Prod.ext_iff] at h
      exact Or.inl ⟨e, h.1.symm, Or.inr (Or.inl rfl)⟩
    · rw [hplan] at h
      simp only [bind_apply, pushHistory] at h
      rcases hsink : env.sink (.plan parsed.data) with e | v
      · rw [sinkUpdate_apply_err hsink] at h
        simp only [Prod.ext_iff] at h
        exact Or.inl ⟨e, h.1.symm, Or.inr (Or.inr ⟨_, hsink⟩)⟩
      · rw [sinkUpdate_apply_ok hsink] at h
        simp only [bind_apply, getAgentState, setAgentState] at h
        refine Or.inr ⟨obs, parsed, _, rfl, rfl, hsink, h, ?_, ?_⟩
        · rfl
        · simp [sdrOf_append, sdrOf, isSDREv, isSelEv, isDispEv, isActResEv]

/-! ## The asset phase -/

theorem popHistory_apply (n : AgentName) (s : RunState) :
    popHistory n s =
      (.ok (),
       { s with
         agents := s.agents.set n
           ({ s.agents.get n with
              messageHistory := (s.agents.get n).messageHistory.dropLast }) }) := rfl

theorem setAsset_apply (k v : String) (s : RunState) :
    setAsset k v s = (.ok (), { s with assets := insertAssoc s.assets k v }) := rfl

theorem Agents.set_set (a : Agents) (n : AgentName) (x y : Agent) :
    (a.set n x).set n y = a.set n y := by
  cases n <;> rfl

theorem Agents.set_get_eta (a : Agents) (n : AgentName) : a.set n (a.get n) = a := by
  cases n <;> rfl

theorem dropLast_snoc {α : Type} (l : List α) (a : α) : (l ++ [a]).dropLast = l := by
  simp

/-- A successful asset iteration: the prompt turn is pushed and popped (the
conversation is restored), the generated content is written
insert-or-overwrite into the asset map, and the `AddedAsset` emission is
accepted; the trace gains no step-level events. -/
theorem assetBody_ok_spec {env : MEnv} {i : Nat} {asset : MethodicalAsset}
    {s s' : RunState} {named : NamedAsset}
    (h : assetBody env i asset s = (.ok named, s')) :
    ∃ content, env.assetResult i = .ok content ∧
      named = ⟨asset.name, content⟩ ∧
      s'.assets = insertAssoc s.assets asset.name content ∧
      s'.agents = s.agents ∧
      ∃ Δ, s'.trace = s.trace ++ Δ ∧ ∀ e ∈ Δ, NotSDR e := by
  rw [assetBody] at h
  obtain ⟨u1, s1, hA, h⟩ := bind_ok_inv h
  rw [pushHistory_apply] at hA
  simp only [Prod.ext_iff, Except.ok.injEq] at hA
  obtain ⟨-, hs1⟩ := hA
  subst hs1
  rcases hr : env.assetResult i with e | content
  · rw [hr] at h
    exact absurd h throw_ne_ok
  · rw [hr] at h
    obtain ⟨u2, s2, hB, h⟩ := bind_ok_inv h
    rw [popHistory_apply] at hB
    simp only [Prod.ext_iff, Except.ok.injEq] at hB
    obtain ⟨-, hs2⟩ := hB
    subst hs2
    obtain ⟨u3, s3, hC, h⟩ := bind_ok_inv h
    rw [setAsset_apply] at hC
    simp only [Prod.ext_iff, Except.ok.injEq] at hC
    obtain ⟨-, hs3⟩ := hC
    subst hs3
    obtain ⟨u4, s4, hD, h⟩ := bind_ok_inv h
    obtain ⟨hsink, hs4⟩ := sinkUpdate_ok_inv hD
    subst hs4
    simp only [M.pure, Prod.ext_iff, Except.ok.injEq] at h
    obtain ⟨hnamed, hs'⟩ := h
    subst hs'
    refine ⟨content, rfl, hnamed.symm, by simp, ?_,
      [Event.update (.addedAsset ⟨asset.name, content⟩)], by simp, ?_⟩
    · simp only [Agents.set_set, Agents.get_set_same, dropLast_snoc]
      exact Agents.set_get_eta _ _
    · intro e he
      simp only [List.mem_singleton] at he
      subst he
      rfl

theorem takeMemoriesIndex_apply (s : RunState) :
    takeMemoriesIndex s = (.ok s.memCalls, { s with memCalls := s.memCalls + 1 }) := rfl

theorem emit_apply (e : Event) (s : RunState) :
    emit e s = (.ok (), { s with trace := s.trace ++ [e] }) := rfl

theorem storeMemories_err_inv {env : MEnv} :
    ∀ (l : List String) {s s' : RunState} {er : RunErr},
      storeMemories env l s = (.error er, s') →
      ∃ m, env.storeResult m = .error er := by
  intro l
  induction l with
  | nil =>
      intro s s' er h
      simp [storeMemories, M.pure, Prod.ext_iff] at h
  | cons mem rest ih =>
      intro s s' er h
      rw [storeMemories] at h
      rcases bind_err_inv h with hA | ⟨u1, s1, hA, h⟩
      · simp [emit, Prod.ext_iff] at hA
      · rcases hsr : env.storeResult mem with e | v
        · rw [hsr] at h
          obtain ⟨he, -⟩ := throw_err_inv h
          exact ⟨mem, by rw [hsr, he]⟩
        · rw [hsr] at h
          exact ih h

theorem add_memories_err_inv {env : MEnv} {ag : AgentName} {s s' : RunState}
    {er : RunErr} (h : add_memories env ag s = (.error er, s')) :
    (∃ i, env.memoriesResult i = .error er) ∨
    (∃ u, env.sink u = .error er) ∨
    (∃ m, env.storeResult m = .error er) := by
  rw [add_memories] at h
  rcases bind_err_inv h with hA | ⟨u1, s1, hA, h⟩
  · rw [pushHistory_apply] at hA
    simp [Prod.ext_iff] at hA
  · rw [pushHistory_apply] at hA
    simp only [Prod.ext_iff, Except.ok.injEq] at hA
    obtain ⟨-, hs1⟩ := hA
    subst hs1
    rcases bind_err_inv h with hB | ⟨idx, s2, hB, h⟩
    · simp [takeMemoriesIndex, Prod.ext_iff] at hB
    · rw [takeMemoriesIndex_apply] at hB
      simp only [Prod.ext_iff, Except.ok.injEq] at hB
      obtain ⟨hidx, hs2⟩ := hB
      subst hs2
      rcases hmr : env.memoriesResult idx with e | parsed
      · rw [hmr] at h
        obtain ⟨he, -⟩ := throw_err_inv h
        exact Or.inl ⟨idx, by rw [hmr, he]⟩
      · rw [hmr] at h
        rcases bind_err_inv h with hC | ⟨u2, s3, hC, h⟩
        · obtain ⟨hu, -⟩ := sinkUpdate_err_inv hC
          exact Or.inr (Or.inl ⟨_, hu⟩)
        · obtain ⟨-, hs3⟩ := sinkUpdate_ok_inv hC
          subst hs3
          exact Or.inr (Or.inr (storeMemories_err_inv _ h))

theorem assetBody_err_inv {env : MEnv} {i : Nat} {asset : MethodicalAsset}
    {s s' : RunState} {er : RunErr}
    (h : assetBody env i asset s = (.error er, s')) :
    env.assetResult i = .error er ∨ ∃ u, env.sink u = .error er := by
  rw [assetBody] at h
  rcases bind_err_inv h with hA | ⟨u1, s1, hA, h⟩
  · rw [pushHistory_apply] at hA
    simp [Prod.ext_iff] at hA
  · rw [pushHistory_apply] at hA
    simp only [Prod.ext_iff, Except.ok.injEq] at hA
    obtain ⟨-, hs1⟩ := hA
    subst hs1
    rcases hr : env.assetResult i with e | content
    · rw [hr] at h
      obtain ⟨he, -⟩ := throw_err_inv h
      exact Or.inl (by rw [he])
    · rw [hr] at h
      rcases bind_err_inv h with hB | ⟨u2, s2, hB, h⟩
      · rw [popHistory_apply] at hB
        simp [Prod.ext_iff] at hB
      · rw [popHistory_apply] at hB
        simp only [Prod.ext_iff, Except.ok.injEq] at hB
        obtain ⟨-, hs2⟩ := hB
        subst hs2
        rcases bind_err_inv h with hC | ⟨u3, s3, hC, h⟩
        · simp [setAsset, Prod.ext_iff] at hC
        · rw [setAsset_apply] at hC
          simp only [Prod.ext_iff, Except.ok.injEq] at hC
          obtain ⟨-, hs3⟩ := hC
          subst hs3
          rcases bind_err_inv h with hD | ⟨u4, s4, hD, h⟩
          · obtain ⟨hu, -⟩ := sinkUpdate_err_inv hD
            exact Or.inr ⟨_, hu⟩
          · obtain ⟨-, hs4⟩ := sinkUpdate_ok_inv hD
            subst hs4
            simp [M.pure, Prod.ext_iff] at h

theorem runAssets_err_inv {env : MEnv} :
    ∀ (l : List MethodicalAsset) (i : Nat) {s s' : RunState} {er : RunErr},
      runAssets env i l s = (.error er, s') →
      (∃ j, env.assetResult j = .error er) ∨ ∃ u, env.sink u = .error er := by
  intro l
  induction l with
  | nil =>
      intro i s s' er h
      simp [runAssets, M.pure, Prod.ext_iff] at h
  | cons a rest ih =>
      intro i s s' er h
      rw [runAssets] at h
      rcases bind_err_inv h with hA | ⟨n, s1, hA, h⟩
      · rcases assetBody_err_inv hA with h1 | h1
        · exact Or.inl ⟨i, h1⟩
        · exact Or.inr h1
      · rcases bind_err_inv h with hB | ⟨ns, s2, hB, h⟩
        · exact ih (i + 1) hB
        · simp [M.pure, Prod.ext_iff] at h

theorem traceP_assetBody {P : Event → Prop} (env : MEnv) (i : Nat)
    (asset : MethodicalAsset) (h : ∀ a, P (.update (.addedAsset a))) :
    TraceP P (assetBody env i asset) := by
  rw [assetBody]
  refine TraceP.bindStep (traceP_pushHistory _ _) (fun _ => ?_)
  rcases env.assetResult i with e | content
  · exact traceP_throw e
  · refine TraceP.bindStep (traceP_popHistory _) (fun _ => ?_)
    refine TraceP.bindStep (traceP_setAsset _ _) (fun _ => ?_)
    exact TraceP.bindStep (traceP_sinkUpdate (h _)) (fun _ => traceP_pure _)

theorem traceP_runAssets {P : Event → Prop} (env : MEnv)
    (h : ∀ a, P (.update (.addedAsset a))) :
    ∀ (l : List MethodicalAsset) (i : Nat), TraceP P (runAssets env i l) := by
  intro l
  induction l with
  | nil => intro i; exact traceP_pure []
  | cons a rest ih =>
      intro i
      rw [runAssets]
      refine TraceP.bindStep (traceP_assetBody env i a h) (fun n => ?_)
      exact TraceP.bindStep (ih (i + 1)) (fun ns => traceP_pure _)

/-- Claim C2: if the action gate denies a step's proposed action, the
methodical run aborts with the denial error; the denied step is never
dispatched, no later step is dispatched (one more `SelectedStep` than
dispatches, and one `ActionResults` per dispatch), and no assets are
written to the shared asset map.  The hypotheses require a clean
environment, in which only the gate can produce a `disallowed` error. -/
theorem gate_denial_aborts_run (env : MEnv) (s0 s' : RunState) (r : String)
    (clean : CleanEnv env) (h0 : s0.trace = [])
    (h : run_method_agent env s0 = (.error (.disallowed r), s')) :
    countSel s'.trace = countDisp s'.trace + 1 ∧
    countActRes s'.trace = countDisp s'.trace ∧
    s'.assets = s0.assets := by
  rcases run_prefix_inv h with ⟨er, hres, hsrc⟩ |
    ⟨obs, parsed, smid, hrec, hplan, hsink, hrest, hassets, hsdr⟩
  · have her : er = .disallowed r := by simpa using hres.symm
    subst her
    rcases hsrc with h1 | h1 | ⟨u, h1⟩
    · exact absurd h1 (clean.2.2.2.2.2.2.2 r)
    · exact absurd h1 (clean.2.2.2.2.2.2.1 r)
    · exact absurd h1 (clean.1 u r)
  · rcases bind_err_inv hrest with hA | ⟨u1, s1, hA, hrest⟩
    · obtain ⟨ha1, c1, c2⟩ := runSteps_disallowed_counts clean _ 0 hA
      have k1 : countSel smid.trace = 0 := by
        rw [← countSel_sdrOf, hsdr, countSel_sdrOf, h0]
        rfl
      have k2 : countDisp smid.trace = 0 := by
        rw [← countDisp_sdrOf, hsdr, countDisp_sdrOf, h0]
        rfl
      have k3 : countActRes smid.trace = 0 := by
        rw [← countActRes_sdrOf, hsdr, countActRes_sdrOf, h0]
        rfl
      exact ⟨by omega, by omega, ha1.trans hassets⟩
    · rcases bind_err_inv hrest with hB | ⟨changed, s2, hB, hrest⟩
      · rcases runAssets_err_inv _ 0 hB with ⟨j, hj⟩ | ⟨u, hu⟩
        · exact absurd hj (clean.2.2.2.2.1 j r)
        · exact absurd hu (clean.1 u r)
      · rcases bind_err_inv hrest with hC | ⟨u2, s3, hC, hrest⟩
        · rcases add_memories_err_inv hC with ⟨i, hi⟩ | ⟨u, hu⟩ | ⟨m, hm⟩
          · exact absurd hi (clean.2.2.2.1 i r)
          · exact absurd hu (clean.1 u r)
          · exact absurd hm (clean.2.2.2.2.2.1 m r)
        · simp [M.pure, Prod.ext_iff] at hrest

/-- Claim C3: a methodical run that completes successfully dispatches
exactly one tool call per plan step, strictly in the declared step order
(the step-level subtrace is exactly the per-step triples, in plan order),
and emits exactly N `SelectedStep` and N `ActionResults` updates for a
plan with N steps. -/
theorem methodical_dispatch_counts (env : MEnv) (s0 s' : RunState)
    (parsed : ParsedResponse MethodicalPlan) (resp : String)
    (h0 : s0.trace = []) (hplan : env.planResult = .ok parsed)
    (h : run_method_agent env s0 = (.ok resp, s')) :
    (∃ al ol, al.length = parsed.data.steps.length ∧
      ol.length = parsed.data.steps.length ∧
      sdrOf s'.trace = stepTriples parsed.data.steps al ol) ∧
    countSel s'.trace = parsed.data.steps.length ∧
    countDisp s'.trace = parsed.data.steps.length ∧
    countActRes s'.trace = parsed.data.steps.length := by
  rcases run_prefix_inv h with ⟨er, hres, -⟩ |
    ⟨obs, parsed', smid, hrec, hplan', hsink, hrest, hassets, hsdr⟩
  · exact absurd hres (by simp)
  · rw [hplan] at hplan'
    injection hplan' with hpp
    subst hpp
    rcases bind_ok_inv hrest with ⟨u1, s1, hA, hrest⟩
    obtain ⟨-, al, ol, hl1, hl2, hsdr1⟩ := runSteps_ok_sdr _ 0 hA
    rcases bind_ok_inv hrest with ⟨changed, s2, hB, hrest⟩
    obtain ⟨Δ2, ht2, hm2⟩ := traceP_runAssets (P := NotSDR) env (fun a => rfl) _ 0 s1
    rw [hB] at ht2
    rcases bind_ok_inv hrest with ⟨u2, s3, hC, hrest⟩
    obtain ⟨Δ3, ht3, hm3⟩ :=
      traceP_add_memories (P := NotSDR) env env.getAgent (fun m => rfl) (fun t => rfl) s2
    rw [hC] at ht3
    simp only [M.pure, Prod.ext_iff, Except.ok.injEq] at hrest
    obtain ⟨hresp, hs'⟩ := hrest
    subst hs'
    have hsdr3 : sdrOf s3.trace = sdrOf s2.trace := by
      rw [ht3, sdrOf_append, sdrOf_eq_nil hm3, List.append_nil]
    have hsdr2 : sdrOf s2.trace = sdrOf s1.trace := by
      rw [ht2, sdrOf_append, sdrOf_eq_nil hm2, List.append_nil]
    have hfinal : sdrOf s3.trace = stepTriples parsed.data.steps al ol := by
      rw [hsdr3, hsdr2, hsdr1, hsdr, h0]
      simp [sdrOf]
    obtain ⟨c1, c2, c3⟩ := counts_stepTriples parsed.data.steps al ol hl1 hl2
    refine ⟨⟨al, ol, hl1, hl2, hfinal⟩, ?_, ?_, ?_⟩
    · rw [← countSel_sdrOf, hfinal, c1]
    · rw [← countDisp_sdrOf, hfinal, c2]
    · rw [← countActRes_sdrOf, hfinal, c3]

/-! ## Every dispatch is against the fast agent -/

theorem fastOK_update (u : Update) : FastOK (.update u) :=
  fun _ _ h => Event.noConfusion h

theorem fastOK_toolResultAppend (o : String) : FastOK (.toolResultAppend o) :=
  fun _ _ h => Event.noConfusion h

theorem fastOK_budgetCheck (t : Int) : FastOK (.budgetCheck t) :=
  fun _ _ h => Event.noConfusion h

theorem fastOK_crop (k : Nat) : FastOK (.crop k) :=
  fun _ _ h => Event.noConfusion h

theorem fastOK_memoryStore (m : String) : FastOK (.memoryStore m) :=
  fun _ _ h => Event.noConfusion h

theorem fastOK_dispatch_fast (a : Action) : FastOK (.dispatch .fast a) := by
  intro sel act h
  injection h with h1 h2
  exact h1.symm

theorem traceP_fast_handleToolSuccess (env : MEnv) (out : String) :
    TraceP FastOK (handleToolSuccess env out) := by
  rw [handleToolSuccess]
  refine TraceP.bindStep (traceP_sinkUpdate (fastOK_update _)) (fun _ => ?_)
  refine TraceP.bindStep (traceP_emit (fastOK_toolResultAppend _)) (fun _ => ?_)
  refine TraceP.bindStep (traceP_pushHistory _ _) (fun _ => ?_)
  refine TraceP.bindStep (traceP_getAgentState _) (fun a => ?_)
  refine TraceP.bindStep (traceP_emit (fastOK_budgetCheck _)) (fun _ => ?_)
  split
  · exact traceP_budgetFlush env (fun m => fastOK_update _)
      (fun t => fastOK_memoryStore _) (fun k => fastOK_crop _)
  · exact traceP_pure ()

theorem traceP_fast_stepBody (env : MEnv) (i : Nat) (step : MethodicalStep) :
    TraceP FastOK (stepBody env i step) := by
  rw [stepBody]
  refine TraceP.bindStep (traceP_sinkUpdate (fastOK_update _)) (fun _ => ?_)
  refine TraceP.bindStep (traceP_pushHistory _ _) (fun _ => ?_)
  rcases env.thoughtsResult i with e | parsed
  · exact traceP_throw e
  · refine TraceP.bindStep (traceP_pushHistory _ _) (fun _ => ?_)
    refine TraceP.bindStep (traceP_sinkUpdate (fastOK_update _)) (fun _ => ?_)
    rcases env.allowAction parsed.data.action with _ | reason
    · exact TraceP.bindStep (traceP_use_tool (fastOK_dispatch_fast _))
        (fun out => traceP_fast_handleToolSuccess env out)
    · exact traceP_throw _

theorem traceP_fast_runSteps (env : MEnv) :
    ∀ (steps : List MethodicalStep) (i : Nat), TraceP FastOK (runSteps env i steps) := by
  intro steps
  induction steps with
  | nil => intro i; exact traceP_pure ()
  | cons st rest ih =>
      intro i
      rw [runSteps]
      exact TraceP.bindStep (traceP_fast_stepBody env i st) (fun _ => ih (i + 1))

theorem traceP_fast_run (env : MEnv) : TraceP FastOK (run_method_agent env) := by
  rw [run_method_agent]
  refine TraceP.bindStep (traceP_clearHistory _) (fun _ => ?_)
  refine TraceP.bindStep (traceP_clearHistory _) (fun _ => ?_)
  refine TraceP.bindStep (traceP_pushPrompt _ _) (fun _ => ?_)
  rcases env.recallResult with e | obs
  · exact traceP_throw e
  · refine TraceP.bindStep (traceP_pushPrompt _ _) (fun _ => ?_)
    rcases env.planResult with e | parsed
    · exact traceP_throw e
    · refine TraceP.bindStep (traceP_pushHistory _ _) (fun _ => ?_)
      refine TraceP.bindStep (traceP_sinkUpdate (fastOK_update _)) (fun _ => ?_)
      refine TraceP.bindStep (traceP_getAgentState _) (fun planner => ?_)
      refine TraceP.bindStep (traceP_getAgentState _) (fun agent => ?_)
      refine TraceP.bindStep (traceP_setAgentState _ _) (fun _ => ?_)
      refine TraceP.bindStep (traceP_fast_runSteps env _ 0) (fun _ => ?_)
      refine TraceP.bindStep
        (traceP_runAssets (P := FastOK) env (fun a => fastOK_update _) _ 0)
        (fun changed => ?_)
      refine TraceP.bindStep
        (traceP_add_memories env _ (fun m => fastOK_update _)
          (fun t => fastOK_memoryStore _)) (fun _ => ?_)
      exact traceP_pure _

/-- Claim C10: in a methodical run, every tool dispatch is executed
against the fast agent (`context.agents.fast`), never against the
executor role supplied through `get_agent`, whatever the plan, the
decision classifications, and the chosen roles. -/
theorem dispatch_uses_fast_agent (env : MEnv) (s0 : RunState)
    (h0 : s0.trace = []) :
    ∀ sel act, Event.dispatch sel act ∈ (run_method_agent env s0).2.trace →
      sel = AgentName.fast := by
  intro sel act hmem
  obtain ⟨Δ, ht, hΔ⟩ := traceP_fast_run env s0
  rw [ht, h0, List.nil_append] at hmem
  exact hΔ _ hmem sel act rfl

/-- Claim C1: after a successful tool dispatch, the tool-success
continuation runs the budget check on the history with the tool result
appended; whenever the remaining-token estimate is below the 1200-token
low-water mark, exactly one budget-flush cycle runs (exactly one
truncation to the 2000-token high-water mark appears in the trace) before
the continuation returns, and afterwards the executor history fits within
the 2000-token high-water mark — regardless of whether the summarization
call inside the flush succeeded or failed; at or above the mark, nothing
is flushed. -/
theorem budget_flush_bounds_history (env : MEnv) (out : String) (s : RunState)
    (hsink : env.sink (.actionResults out) = .ok ()) :
    (handleToolSuccess env out s).1 = .ok () ∧
    (postAppendTokens env s out < 1200 →
      countCrop 2000 (handleToolSuccess env out s).2.trace
        = countCrop 2000 s.trace + 1 ∧
      messagesSize env.cost
        (((handleToolSuccess env out s).2.agents.get env.getAgent).messageHistory)
        ≤ 2000) ∧
    (¬ postAppendTokens env s out < 1200 →
      (handleToolSuccess env out s).2.trace = s.trace ++
        [Event.update (.actionResults out), Event.toolResultAppend out,
          Event.budgetCheck (postAppendTokens env s out)]) := by
  obtain ⟨h1, -, Δ, ht, -, hlow, hhigh⟩ := handleToolSuccess_spec env out s hsink
  refine ⟨h1, fun hc => ⟨?_, (hlow hc).2⟩, fun hc => ?_⟩
  · rw [ht, countCrop_append, countCrop_append, (hlow hc).1]
    simp [countCrop, isCropEv]
  · rw [ht, hhigh hc, List.append_nil]

/-- Claim C5 (amended): the in-loop budget-flush cycle recovers every
summarization failure locally by falling back to forced truncation — it
always returns success, for every environment and state.  (The separate
summarization call after the asset phase, methodical.rs line 326, does
propagate its error; see the counterexample.) -/
theorem budget_flush_never_fails (env : MEnv) (s : RunState) :
    (budgetFlush env s).1 = .ok () :=
  (budgetFlush_spec env s).1

/-- Claim C6 (amended): on every successful tool dispatch the operations
happen in this order: the `ActionResults` update is emitted to the sink
FIRST, then the tool's textual result is appended to the executor history,
then the context-budget check runs. -/
theorem action_results_emitted_before_append (env : MEnv) (out : String)
    (s : RunState) (hsink : env.sink (.actionResults out) = .ok ()) :
    (handleToolSuccess env out s).2.trace = s.trace ++
      [Event.update (.actionResults out), Event.toolResultAppend out,
        Event.budgetCheck (postAppendTokens env s out)] ++
      List.drop (s.trace.length + 3) (handleToolSuccess env out s).2.trace := by
  obtain ⟨-, -, Δ, ht, -⟩ := handleToolSuccess_spec env out s hsink
  have hlen : s.trace.length + 3 =
      (s.trace ++ [Event.update (.actionResults out), Event.toolResultAppend out,
        Event.budgetCheck (postAppendTokens env s out)]).length := by
    simp
  rw [ht, hlen, List.drop_left]

/-- Claim C7: a successful asset iteration pushes the asset-writing prompt
turn and pops it back off immediately after the content is generated, so
the executor's message history — indeed every role's state — after the
iteration equals the history before it. -/
theorem asset_prompt_restores_history (env : MEnv) (i : Nat)
    (asset : MethodicalAsset) (s s' : RunState) (named : NamedAsset)
    (h : assetBody env i asset s = (.ok named, s')) :
    (s'.agents.get env.getAgent).messageHistory
      = (s.agents.get env.getAgent).messageHistory ∧
    s'.agents = s.agents := by
  obtain ⟨content, -, -, -, hag, -⟩ := assetBody_ok_spec h
  exact ⟨by rw [hag], hag⟩

/-! ## Last write wins in the asset map -/

theorem find_replace {l : List (String × String)} {k v : String}
    (h : l.any (fun p => p.1 == k) = true) :
    (List.find? (fun p => p.1 == k)
      (l.map (fun p => if p.1 == k then (k, v) else p))).map Prod.snd = some v := by
  induction l with
  | nil => simp at h
  | cons p rest ih =>
      by_cases hp : p.1 == k
      · simp [List.find?, hp]
      · have h' : rest.any (fun p => p.1 == k) = true := by
          simp only [List.any_cons, Bool.or_eq_true] at h
          rcases h with h | h
          · exact absurd h hp
          · exact h
        have hpf : (p.1 == k) = false := by simpa using hp
        have hres := ih h'
        simp only [List.map_cons, if_neg hp, List.find?]
        rw [hpf]
        exact hres

theorem find_append_new {l : List (String × String)} {k v : String}
    (h : l.any (fun p => p.1 == k) = false) :
    (List.find? (fun p => p.1 == k) (l ++ [(k, v)])).map Prod.snd = some v := by
  induction l with
  | nil => simp [List.find?]
  | cons p rest ih =>
      simp only [List.any_cons, Bool.or_eq_false_iff] at h
      have hres := ih h.2
      simp only [List.cons_append, List.find?]
      rw [h.1]
      exact hres

theorem lookupAssoc_insertAssoc (l : List (String × String)) (k v : String) :
    lookupAssoc (insertAssoc l k v) k = some v := by
  unfold insertAssoc lookupAssoc
  by_cases hany : l.any (fun p => p.1 == k) = true
  · rw [if_pos hany]
    exact find_replace hany
  · rw [if_neg hany]
    refine find_append_new ?_
    simp only [Bool.not_eq_true] at hany
    exact hany

/-- Claim C4 (amended): when the same asset name appears twice in the
plan's asset list, the later content wins in the shared asset map — but
the changed-asset list behind the returned digest gains one entry per
asset spec in plan order, so the duplicated name appears twice in the
digest, earlier content first, later content second (no deduplication). -/
theorem asset_last_write_wins_amended (env : MEnv) (s0 s' : RunState)
    (parsed : ParsedResponse MethodicalPlan) (n d1 d2 resp c1 c2 : String)
    (hplan : env.planResult = .ok parsed)
    (hsteps : parsed.data.steps = [])
    (hassetsp : parsed.data.assets = [⟨n, d1⟩, ⟨n, d2⟩])
    (hc1 : env.assetResult 0 = .ok c1) (hc2 : env.assetResult 1 = .ok c2)
    (h : run_method_agent env s0 = (.ok resp, s')) :
    lookupAssoc s'.assets n = some c2 ∧
    resp = "Assets:\n\n" ++ ("## Asset `" ++ n ++ "`\n" ++ c1 ++ "\n"
      ++ ("## Asset `" ++ n ++ "`\n" ++ c2)) := by
  rcases run_prefix_inv h with ⟨er, hres, -⟩ |
    ⟨obs, parsed', smid, hrec, hplan', hsink, hrest, hsm, -⟩
  · exact absurd hres (by simp)
  · rw [hplan] at hplan'
    injection hplan' with hpp
    subst hpp
    rcases bind_ok_inv hrest with ⟨u1, s1, hA, hrest⟩
    rw [hsteps] at hA
    simp only [runSteps, M.pure, Prod.ext_iff, Except.ok.injEq] at hA
    obtain ⟨-, hs1⟩ := hA
    subst hs1
    rcases bind_ok_inv hrest with ⟨changed, s2, hB, hrest⟩
    rw [hassetsp, runAssets] at hB
    rcases bind_ok_inv hB with ⟨n1, t1, hB1, hB⟩
    obtain ⟨c1', hc1', hn1, hmap1, hag1, -⟩ := assetBody_ok_spec hB1
    rw [hc1] at hc1'
    injection hc1' with he1
    subst he1
    rcases bind_ok_inv hB with ⟨ns2, t2, hB2, hB⟩
    rw [runAssets] at hB2
    rcases bind_ok_inv hB2 with ⟨n2, t3, hB21, hB2⟩
    obtain ⟨c2', hc2', hn2, hmap2, hag2, -⟩ := assetBody_ok_spec hB21
    rw [show (0 : Nat) + 1 = 1 from rfl, hc2] at hc2'
    injection hc2' with he2
    subst he2
    rcases bind_ok_inv hB2 with ⟨ns3, t4, hB22, hB2⟩
    simp only [runAssets, M.pure, Prod.ext_iff, Except.ok.injEq] at hB22
    obtain ⟨hns3, ht4⟩ := hB22
    subst hns3
    subst ht4
    simp only [M.pure, Prod.ext_iff, Except.ok.injEq] at hB2
    obtain ⟨hns2, ht2⟩ := hB2
    subst hns2
    subst ht2
    simp only [M.pure, Prod.ext_iff, Except.ok.injEq] at hB
    obtain ⟨hchanged, hs2⟩ := hB
    subst hchanged
    subst hs2
    rcases bind_ok_inv hrest with ⟨u2, s3, hC, hrest⟩
    have hamf := assetsFrame_add_memories env env.getAgent t3
    rw [hC] at hamf
    simp only [M.pure, Prod.ext_iff, Except.ok.injEq] at hrest
    obtain ⟨hresp, hs'⟩ := hrest
    subst hs'
    subst hn1
    subst hn2
    refine ⟨?_, ?_⟩
    · rw [hamf, hmap2, hmap1]
      exact lookupAssoc_insertAssoc _ n c2
    · rw [← hresp]
      rfl

/-! ## The employee loop -/

theorem employeeSeed_spec (env : EEnv) (s : RunState) :
    (employeeSeed env s).1 = .ok () ∧ (employeeSeed env s).2.trace = s.trace :=
  ⟨rfl, rfl⟩

/-- Claim C8: when a parsed decision's command equals `finish`, the
employee loop returns success immediately, with no registry lookup and no
dispatch; and for the decision sequence `[lookup, finish]` the whole run
returns success after exactly one registry lookup and one dispatch, both
of `lookup` — `finish` is never looked up or dispatched. -/
theorem employee_finish_terminates (env : EEnv) (fuel : Nat) (s : RunState)
    (p0 p1 : ParsedResponse EmployeeThought) (out : String)
    (hd0 : env.decision 0 = .ok p0) (hc0 : p0.data.action.command = "lookup")
    (hd1 : env.decision 1 = .ok p1) (hc1 : p1.data.action.command = "finish")
    (hreg : env.registry.contains "lookup" = true)
    (hrun : env.runCmd 0 = .ok out) :
    (∀ (k f2 : Nat) (s2 : RunState) (parsed : ParsedResponse EmployeeThought),
      env.decision k = .ok parsed → parsed.data.action.command = "finish" →
      employeeLoop env (f2 + 1) k s2 = (.ok (), s2)) ∧
    ∃ s', run_employee env (fuel + 2) s = (.ok (), s') ∧
      s'.trace = s.trace ++ [Event.cmdLookup "lookup",
        Event.dispatchCmd "lookup" p0.data.action.args] := by
  constructor
  · intro k f2 s2 parsed hdk hfin
    rw [employeeLoop, hdk]
    simp only []
    rw [hfin]
    rfl
  · have hseed := employeeSeed_spec env s
    rcases hs1 : employeeSeed env s with ⟨r1, S1⟩
    rw [hs1] at hseed
    obtain ⟨hr1, hS1t⟩ := hseed
    have hr1' : r1 = .ok () := hr1
    subst hr1'
    have hS1t' : S1.trace = s.trace := hS1t
    rw [run_employee, bind_apply, hs1]
    simp only []
    rw [show fuel + 2 = fuel + 1 + 1 from rfl]
    rw [employeeLoop, hd0]
    simp only []
    rw [hc0, hreg, hrun]
    rw [show (0 : Nat) + 1 = 1 from rfl]
    rw [employeeLoop, hd1]
    simp only []
    rw [hc1]
    refine ⟨_, rfl, ?_⟩
    simp [hS1t', List.append_assoc]

/-- Claim C9 (amended): a decision naming a command absent from the
registry fails the run with the command-not-found error naming the
unresolved command, and at the moment of failure the role's message
history (indeed every role state) is unchanged from loop entry: the
decision's raw text is appended only after a successful dispatch, so it is
not in the history. -/
theorem command_not_found_no_history (env : EEnv) (fuel : Nat) (s : RunState)
    (parsed : ParsedResponse EmployeeThought)
    (hd0 : env.decision 0 = .ok parsed)
    (hfin : (parsed.data.action.command == "finish") = false)
    (hreg : env.registry.contains parsed.data.action.command = false) :
    employeeLoop env (fuel + 1) 0 s =
      (.error (.employeeErr ("Cannot find command " ++ parsed.data.action.command)),
        { s with trace := s.trace ++ [Event.cmdLookup parsed.data.action.command] }) := by
  rw [employeeLoop, hd0]
  simp only []
  rw [hfin, hreg]
  rfl

/-! ## Counterexamples and witnesses -/

/-- Claim C4 counterexample: with an empty step list and the asset name
`a` written twice (contents `x` then `y`), the changed-asset list behind
the digest contains TWO entries for `a` — the digest renders both — so the
claimed deduplication of the changed-asset list does not hold; the shared
asset map does keep the later content. -/
theorem asset_duplicate_counterexample :
    (run_method_agent envC4 st0).1
      = .ok "Assets:\n\n## Asset `a`\nx\n## Asset `a`\ny" ∧
    List.filter isAddedAssetEv (run_method_agent envC4 st0).2.trace
      = [Event.update (.addedAsset ⟨"a", "x"⟩),
         Event.update (.addedAsset ⟨"a", "y"⟩)] ∧
    lookupAssoc (run_method_agent envC4 st0).2.assets "a" = some "y" := by
  refine ⟨?_, ?_, ?_⟩ <;>
    · simp only [run_method_agent, runSteps, runAssets, assetBody, stepBody,
        add_memories, storeMemories, handleToolSuccess, budgetFlush, use_tool,
        sinkUpdate, emit, pushHistory, popHistory, pushPrompt, clearHistory,
        getAgentState, setAgentState, setAsset, takeMemoriesIndex, insertAssoc,
        assetDigest, bind, M.bind, M.pure, M.throw, M.attempt, cropHistory,
        Agent.getMessages, messagesSize, tokensRemainingFor,
        Agents.get, Agents.set, envC4, envBase, st0, agents0, agent0]
      try rfl

/-- Claim C4 (amended) witness at the concrete duplicate-name run. -/
theorem asset_last_write_wins_amended_witness :
    envC4.planResult
      = .ok ⟨⟨"plan", [], [⟨"a", "first"⟩, ⟨"a", "second"⟩]⟩, "raw plan"⟩ ∧
    envC4.assetResult 0 = .ok "x" ∧ envC4.assetResult 1 = .ok "y" ∧
    lookupAssoc (run_method_agent envC4 st0).2.assets "a" = some "y" ∧
    "Assets:\n\n## Asset `a`\nx\n## Asset `a`\ny"
      = "Assets:\n\n" ++ ("## Asset `" ++ "a" ++ "`\n" ++ "x" ++ "\n"
        ++ ("## Asset `" ++ "a" ++ "`\n" ++ "y")) := by
  have h := asset_last_write_wins_amended envC4 st0 (run_method_agent envC4 st0).2
    ⟨⟨"plan", [], [⟨"a", "first"⟩, ⟨"a", "second"⟩]⟩, "raw plan"⟩
    "a" "first" "second" "Assets:\n\n## Asset `a`\nx\n## Asset `a`\ny" "x" "y"
    rfl rfl rfl rfl rfl
    (by simp only [run_method_agent, runSteps, runAssets, assetBody, stepBody,
          add_memories, storeMemories, handleToolSuccess, budgetFlush, use_tool,
          sinkUpdate, emit, pushHistory, popHistory, pushPrompt, clearHistory,
          getAgentState, setAgentState, setAsset, takeMemoriesIndex, insertAssoc,
          assetDigest, bind, M.bind, M.pure, M.throw, M.attempt, cropHistory,
          Agent.getMessages, messagesSize, tokensRemainingFor,
          Agents.get, Agents.set, envC4, envBase, st0, agents0, agent0]
        rfl)
  exact ⟨rfl, rfl, rfl, h.1, h.2⟩

/-- Claim C5 counterexample: with an empty plan, only the final
post-asset-phase summarization call can fail — and its parse error
surfaces as the run's result, so a summarization error does propagate to
the caller. -/
theorem final_summary_error_surfaces :
    (run_method_agent envC5 st0).1 = .error (.parseExhausted "bad") := by
  simp only [run_method_agent, runSteps, runAssets, assetBody, stepBody,
    add_memories, storeMemories, handleToolSuccess, budgetFlush, use_tool,
    sinkUpdate, emit, pushHistory, popHistory, pushPrompt, clearHistory,
    getAgentState, setAgentState, setAsset, takeMemoriesIndex, insertAssoc,
    assetDigest, bind, M.bind, M.pure, M.throw, M.attempt, cropHistory,
    Agent.getMessages, messagesSize, tokensRemainingFor,
    Agents.get, Agents.set, envC5, envBase, st0, agents0, agent0]

/-- Claim C6 counterexample: on a successful dispatch the trace records
the `ActionResults` emission BEFORE the history append of the tool
result, contradicting the claimed append-then-emit order. -/
theorem action_results_order_counterexample :
    (handleToolSuccess envBase "out" st0).2.trace
      = [Event.update (.actionResults "out"), Event.toolResultAppend "out",
          Event.budgetCheck 10000] :=
  rfl

/-- Claim C9 counterexample: at the command-not-found failure the
employee history is exactly the seeded next-command message — the
decision's raw text has NOT been appended, contradicting the claim's
"already-appended decision". -/
theorem command_not_found_counterexample :
    (run_employee envE9 3 st0).1
      = .error (.employeeErr "Cannot find command transmogrify") ∧
    (run_employee envE9 3 st0).2.agents.employee.messageHistory
      = [Message.user runNextCommandText] ∧
    Message.assistant "raw transmogrify" ∉
      (run_employee envE9 3 st0).2.agents.employee.messageHistory :=
  ⟨rfl, rfl, by decide⟩

/-- Claim C1 witness: with a zero-size context the estimate is below the
low-water mark and the flush bounds hold at a concrete input. -/
theorem budget_flush_bounds_history_witness :
    envC1.sink (.actionResults "out") = .ok () ∧
    postAppendTokens envC1 st0 "out" < 1200 ∧
    countCrop 2000 (handleToolSuccess envC1 "out" st0).2.trace
      = countCrop 2000 st0.trace + 1 ∧
    messagesSize envC1.cost
      (((handleToolSuccess envC1 "out" st0).2.agents.get envC1.getAgent).messageHistory)
      ≤ 2000 := by
  have hc : postAppendTokens envC1 st0 "out" < 1200 := by decide
  have h := (budget_flush_bounds_history envC1 "out" st0 rfl).2.1 hc
  exact ⟨rfl, hc, h.1, h.2⟩

/-- Claim C2 witness: a concrete denied run satisfies the hypotheses and
the conclusions. -/
theorem gate_denial_aborts_run_witness :
    st0.trace = [] ∧
    countSel (run_method_agent envC2 st0).2.trace
      = countDisp (run_method_agent envC2 st0).2.trace + 1 ∧
    countActRes (run_method_agent envC2 st0).2.trace
      = countDisp (run_method_agent envC2 st0).2.trace ∧
    (run_method_agent envC2 st0).2.assets = st0.assets :=
  ⟨rfl, gate_denial_aborts_run envC2 st0 (run_method_agent envC2 st0).2 "no"
    (by refine ⟨?_, ?_, ?_, ?_, ?_, ?_, ?_, ?_⟩ <;> intros <;> simp [envC2, envBase])
    rfl rfl⟩

/-- Claim C3 witness: a concrete one-step run dispatches once and emits
one `SelectedStep` and one `ActionResults`. -/
theorem methodical_dispatch_counts_witness :
    st0.trace = [] ∧
    envC3.planResult = .ok ⟨⟨"plan", [stepC], []⟩, "raw plan"⟩ ∧
    countSel (run_method_agent envC3 st0).2.trace = 1 ∧
    countDisp (run_method_agent envC3 st0).2.trace = 1 ∧
    countActRes (run_method_agent envC3 st0).2.trace = 1 := by
  have h := methodical_dispatch_counts envC3 st0 (run_method_agent envC3 st0).2
    ⟨⟨"plan", [stepC], []⟩, "raw plan"⟩ "Assets:\n\nNo assets changed." rfl rfl
    (by simp only [run_method_agent, runSteps, runAssets, assetBody, stepBody,
          add_memories, storeMemories, handleToolSuccess, budgetFlush, use_tool,
          sinkUpdate, emit, pushHistory, popHistory, pushPrompt, clearHistory,
          getAgentState, setAgentState, setAsset, takeMemoriesIndex, insertAssoc,
          assetDigest, bind, M.bind, M.pure, M.throw, M.attempt, cropHistory,
          Agent.getMessages, messagesSize, tokensRemainingFor,
          Agents.get, Agents.set, envC3, envBase, st0, agents0, agent0, stepC]
        rfl)
  exact ⟨rfl, rfl, h.2.1, h.2.2.1, h.2.2.2⟩

/-- Claim C6 (amended) witness at a concrete successful dispatch. -/
theorem action_results_order_witness :
    envBase.sink (.actionResults "out") = .ok () ∧
    (handleToolSuccess envBase "out" st0).2.trace = st0.trace ++
      [Event.update (.actionResults "out"), Event.toolResultAppend "out",
        Event.budgetCheck (postAppendTokens envBase st0 "out")] ++
      List.drop (st0.trace.length + 3) (handleToolSuccess envBase "out" st0).2.trace :=
  ⟨rfl, action_results_emitted_before_append envBase "out" st0 rfl⟩

/-- Claim C7 witness: a concrete asset iteration restores the history. -/
theorem asset_prompt_restores_history_witness :
    assetBody envBase 0 assetC st0
      = (.ok ⟨"a", "content"⟩, (assetBody envBase 0 assetC st0).2) ∧
    ((assetBody envBase 0 assetC st0).2.agents.get envBase.getAgent).messageHistory
      = (st0.agents.get envBase.getAgent).messageHistory ∧
    (assetBody envBase 0 assetC st0).2.agents = st0.agents :=
  ⟨rfl,
    asset_prompt_restores_history envBase 0 assetC st0
      (assetBody envBase 0 assetC st0).2 ⟨"a", "content"⟩ rfl⟩

/-- Claim C8 witness: the concrete `[lookup, finish]` scenario; the
`finish` decision short-circuits the loop into immediate success. -/
theorem employee_finish_terminates_witness :
    envE8.decision 0 = .ok lookupThought ∧
    lookupThought.data.action.command = "lookup" ∧
    envE8.decision 1 = .ok finishThought ∧
    finishThought.data.action.command = "finish" ∧
    envE8.registry.contains "lookup" = true ∧
    envE8.runCmd 0 = .ok "lookup output" ∧
    employeeLoop envE8 (4 + 1) 1 st0 = (.ok (), st0) :=
  ⟨rfl, rfl, rfl, rfl, by decide, rfl,
    (employee_finish_terminates envE8 1 st0 lookupThought finishThought
      "lookup output" rfl rfl rfl rfl (by decide) rfl).1 1 4 st0 finishThought rfl rfl⟩

/-- Claim C9 (amended) witness at the concrete unknown-command run. -/
theorem command_not_found_no_history_witness :
    envE9.decision 0 = .ok transmogrifyThought ∧
    (transmogrifyThought.data.action.command == "finish") = false ∧
    envE9.registry.contains transmogrifyThought.data.action.command = false ∧
    employeeLoop envE9 (2 + 1) 0 st0
      = (.error (.employeeErr ("Cannot find command "
          ++ transmogrifyThought.data.action.command)),
        { st0 with trace := st0.trace
            ++ [Event.cmdLookup transmogrifyThought.data.action.command] }) :=
  ⟨rfl, by decide, by decide,
    command_not_found_no_history envE9 2 st0 transmogrifyThought rfl
      (by decide) (by decide)⟩

/-- Claim C10 witness: the concrete one-step run contains a dispatch, and
it is against the fast agent. -/
theorem dispatch_uses_fast_agent_witness :
    st0.trace = [] ∧ AgentName.fast = AgentName.fast :=
  ⟨rfl, dispatch_uses_fast_agent envC3 st0 rfl AgentName.fast ⟨"search", "q"⟩
    (by simp only [run_method_agent, runSteps, runAssets, assetBody, stepBody,
          add_memories, storeMemories, handleToolSuccess, budgetFlush, use_tool,
          sinkUpdate, emit, pushHistory, popHistory, pushPrompt, clearHistory,
          getAgentState, setAgentState, setAsset, takeMemoriesIndex, insertAssoc,
          assetDigest, bind, M.bind, M.pure, M.throw, M.attempt, cropHistory,
          Agent.getMessages, messagesSize, tokensRemainingFor,
          Agents.get, Agents.set, envC3, envBase, st0, agents0, agent0, stepC]
        decide)⟩

end SmartGPT
